import Mathlib

/-!
Verification of the `csv-import` module (`src/lib/csv-import.ts`) of the
spliit repository: a bank-statement CSV ingestion core.  The TypeScript
source is shallowly embedded below: JS numbers that hold exact decimal
values are modelled as `ℚ`, JS `Date` time values as `ℤ` (milliseconds
since the epoch, local time taken as UTC), strings as Lean `String`
processed through their character lists.  The `nanoid()` identity source
is modelled as an explicit function `Nat → String` supplied by the
caller, indexed by the source row, so that identity nondeterminism is
visible in the statements.
-/

/-- JS whitespace (ASCII part), as used by `String.prototype.trim` and by
`parseFloat` leading-whitespace skipping. -/
def isJsWs (c : Char) : Bool :=
  c = ' ' || c = '\t' || c = '\n' || c = '\r' || c = '\x0b' || c = '\x0c'

/-- Embedding of JS `String.prototype.trim` on character lists: drop leading
and trailing whitespace. -/
def trimChars (l : List Char) : List Char :=
  ((l.dropWhile isJsWs).reverse.dropWhile isJsWs).reverse

/-- JS `trim` on whole strings. -/
def trimStr (s : String) : String :=
  String.mk (trimChars s.data)

/-- Decimal value of a digit list (the value `parseInt` gives a digit
string). -/
def digitsVal (l : List Char) : Nat :=
  l.foldl (fun a c => a * 10 + (c.toNat - 48)) 0

/-- ASCII lower-casing of one character (`String.prototype.toLowerCase`
restricted to ASCII, which covers every header keyword the detector uses). -/
def lowerChar (c : Char) : Char :=
  if 'A' ≤ c ∧ c ≤ 'Z' then Char.ofNat (c.toNat + 32) else c

/-- ASCII lower-casing of a string. -/
def lowerStr (s : String) : String :=
  String.mk (s.data.map lowerChar)

/-- Embedding of JS `String.prototype.includes`: does `pat` occur as a
contiguous substring? -/
def hasSubstr (pat : List Char) : List Char → Bool
  | [] => pat.isPrefixOf []
  | c :: t => pat.isPrefixOf (c :: t) || hasSubstr pat t

/-- JS `includes` on whole strings. -/
def hasSubstrS (s pat : String) : Bool :=
  hasSubstr pat.data s.data

/-- Embedding of `text.split(/\r?\n/)`: split at every `\n`, consuming one
`\r` immediately before it; a `\r` not followed by `\n` stays in its line. -/
def splitJsLinesAux : List Char → List Char → List (List Char)
  | [], cur => [cur.reverse]
  | '\r' :: '\n' :: rest, cur => cur.reverse :: splitJsLinesAux rest []
  | '\n' :: rest, cur => cur.reverse :: splitJsLinesAux rest []
  | c :: rest, cur => splitJsLinesAux rest (c :: cur)

/-- Embedding of `text.split(/\r?\n/).filter((l) => l.trim().length > 0)` — the non-blank
lines of the input text, as used by `parseCsv` and `detectCsvFormat`. -/
def nonBlankLines (text : String) : List String :=
  ((splitJsLinesAux text.data []).filter
      (fun l => !(trimChars l).isEmpty)).map String.mk

/-- Loop of `splitCsvLine` (`csv-import.ts` lines 34-57): walk the
characters with an `inQuotes` flag and an accumulating current field; a
quote while in quotes followed by another quote emits one literal quote and
skips it; any other quote toggles the flag; a comma outside quotes ends the
field (trimmed); anything else is content. -/
def splitCsvAux : List Char → Bool → List Char → List (List Char) → List (List Char)
  | [], _, cur, acc => acc ++ [trimChars cur]
  | '"' :: '"' :: rest, true, cur, acc => splitCsvAux rest true (cur ++ ['"']) acc
  | '"' :: rest, inQuotes, cur, acc => splitCsvAux rest (!inQuotes) cur acc
  | ',' :: rest, false, cur, acc => splitCsvAux rest false [] (acc ++ [trimChars cur])
  | c :: rest, inQuotes, cur, acc => splitCsvAux rest inQuotes (cur ++ [c]) acc

/-- Embedding of `splitCsvLine` (`csv-import.ts` lines 34-57). -/
def splitCsvLine (line : String) : List String :=
  (splitCsvAux line.data false [] []).map String.mk

/-- The regex `^(\d{1,2})\/(\d{1,2})\/(\d{4})$` of `parseDate`
(`csv-import.ts` line 61): month digits, slash, day digits, slash, four
year digits, end of string; returns the three `parseInt` values. -/
def matchDatePattern (l : List Char) : Option (Nat × Nat × Nat) :=
  let ms := l.takeWhile Char.isDigit
  let r1 := l.dropWhile Char.isDigit
  if 1 ≤ ms.length ∧ ms.length ≤ 2 then
    match r1 with
    | '/' :: r2 =>
      let ds := r2.takeWhile Char.isDigit
      let r3 := r2.dropWhile Char.isDigit
      if 1 ≤ ds.length ∧ ds.length ≤ 2 then
        match r3 with
        | '/' :: r4 =>
          let ys := r4.takeWhile Char.isDigit
          let r5 := r4.dropWhile Char.isDigit
          if ys.length = 4 ∧ r5 = [] then some (digitsVal ms, digitsVal ds, digitsVal ys)
          else none
        | _ => none
      else none
    | _ => none
  else none

/-- Day number (days since 1970-01-01) of the civil date `(y, m, d)` with
`m ∈ [1,12]` and an arbitrary (possibly out-of-range) day `d`, per the
standard Gregorian formula used by ECMAScript `MakeDay`; divisions are
Euclidean, which agrees with floor division for the positive constant
divisors used here. -/
def daysFromCivil (y m d : ℤ) : ℤ :=
  let yy := if m ≤ 2 then y - 1 else y
  let era := yy / 400
  let yoe := yy - era * 400
  let mp := (m + 9) % 12
  let doy := (153 * mp + 2) / 5 + d - 1
  let doe := yoe * 365 + yoe / 4 - yoe / 100 + doy
  era * 146097 + doe - 719468

/-- Time value (ms) of `new Date(year, monthIndex, day, hour, 0, 0)` per
ECMAScript `MakeDay`/`MakeDate` (local time taken as UTC): the month index
is normalized into the year by floor division, and the day may overflow its
month, rolling the date forward. -/
def jsMakeDateMs (year monthIndex day hour : ℤ) : ℤ :=
  let y := year + monthIndex / 12
  let m := monthIndex % 12 + 1
  daysFromCivil y m day * 86400000 + hour * 3600000

/-- Embedding of `parseDate` (`csv-import.ts` lines 59-74): match the
`MM/DD/YYYY` digit pattern, build `new Date(year, month-1, day, 12, 0, 0)`
(two-digit years are mapped to 1900+y by the `Date` constructor), and
reject the result only when its time value is out of the ECMAScript range
(the `isNaN(date.getTime())` check). -/
def parseDate (s : String) : Option ℤ :=
  match matchDatePattern s.data with
  | none => none
  | some (mo, da, yr) =>
    let yAdj : ℤ := if yr ≤ 99 then (yr : ℤ) + 1900 else (yr : ℤ)
    let ms := jsMakeDateMs yAdj ((mo : ℤ) - 1) (da : ℤ) 12
    if ms.natAbs ≤ 8640000000000000 then some ms else none

/-- Value of the decimal literal `ip.fp` (integer digits, fraction
digits): the exact rational `(ip * 10^|fp| + fp) / 10^|fp|`, built with
`mkRat` so that it evaluates by kernel reduction; `decValue_eq` certifies
it equals `ip + fp / 10^|fp|`. -/
def decValue (ip fp : List Char) : ℚ :=
  mkRat ((digitsVal ip * 10 ^ fp.length + digitsVal fp : ℕ) : ℤ) (10 ^ fp.length)

/-- Exponent suffix handling of JS `parseFloat`: a power of ten is applied
only when at least one digit follows the exponent marker (and its optional
sign); otherwise the marker is trailing junk and the mantissa stands. -/
def expApply (q : ℚ) (neg : Bool) (l : List Char) : ℚ :=
  let ds := l.takeWhile Char.isDigit
  if ds.isEmpty then q
  else if neg then q / 10 ^ digitsVal ds else q * 10 ^ digitsVal ds

/-- Dispatch on the exponent marker after the mantissa. -/
def parseExp (q : ℚ) : List Char → ℚ
  | 'e' :: '+' :: r => expApply q false r
  | 'e' :: '-' :: r => expApply q true r
  | 'e' :: r => expApply q false r
  | 'E' :: '+' :: r => expApply q false r
  | 'E' :: '-' :: r => expApply q true r
  | 'E' :: r => expApply q false r
  | _ => q

/-- Longest unsigned decimal mantissa at the head of the list: digits, an
optional dot with further digits; fails when no digit is found. Returns the
value and the unconsumed rest. -/
def parseMantissa (l : List Char) : Option (ℚ × List Char) :=
  let ip := l.takeWhile Char.isDigit
  let r1 := l.dropWhile Char.isDigit
  match r1 with
  | '.' :: r2 =>
    let fp := r2.takeWhile Char.isDigit
    let r3 := r2.dropWhile Char.isDigit
    if ip.isEmpty ∧ fp.isEmpty then none else some (decValue ip fp, r3)
  | _ => if ip.isEmpty then none else some ((digitsVal ip : ℚ), r1)

/-- Signed mantissa with exponent: the core of JS `parseFloat` after
leading whitespace. -/
def parseFloatChars : List Char → Option ℚ
  | '+' :: r => (parseMantissa r).map (fun p => parseExp p.1 p.2)
  | '-' :: r => (parseMantissa r).map (fun p => -(parseExp p.1 p.2))
  | l => (parseMantissa l).map (fun p => parseExp p.1 p.2)

/-- Embedding of JS `parseFloat`: skip leading whitespace, then parse the
longest numeric prefix (sign, decimal mantissa, optional exponent); `none`
is `NaN` — no leading numeric prefix at all. Exact rational arithmetic
stands in for binary floating point. -/
def parseFloat (s : String) : Option ℚ :=
  parseFloatChars (s.data.dropWhile isJsWs)

/-- JS `Math.abs` on the exact rational model: `|q|`, built with
`Rat.divInt` so that it evaluates by kernel reduction; `ratAbs_eq`
certifies it equals `|q|`. -/
def ratAbs (q : ℚ) : ℚ :=
  Rat.divInt (q.num.natAbs : ℤ) (q.den : ℤ)

/-- Embedding of `toMinorUnits` (`csv-import.ts` lines 76-78):
`Math.round(Math.abs(decimal) * 100)` where `Math.round x = ⌊x + 1/2⌋`
(nearest integer, halves up).  For `d = n/den` this floor is the integer
division `(200·|n| + den) / (2·den)`, the form used here so that it
evaluates by kernel reduction; `toMinorUnits_eq_floor` certifies it equals
`⌊|d| * 100 + 1/2⌋`. -/
def toMinorUnits (decimal : ℚ) : ℤ :=
  (200 * (decimal.num.natAbs : ℤ) + (decimal.den : ℤ)) / (2 * (decimal.den : ℤ))

/-- The `CsvTransaction` record (`csv-import.ts` lines 3-11). -/
structure CsvTransaction where
  id : String
  date : ℤ
  amount : ℤ
  rawAmount : ℚ
  isCredit : Bool
  description : String
  selected : Bool
deriving DecidableEq

/-- The `CsvFormat` union (`csv-import.ts` lines 13-17). -/
inductive CsvFormat where
  | wellsFargo
  | chase
  | bankOfAmerica
  | capitalOne
deriving DecidableEq

/-- The `CsvParseResult` union (`csv-import.ts` lines 26-28). -/
inductive CsvParseResult where
  | success (transactions : List CsvTransaction) (detectedFormat : CsvFormat)
  | failure (error : String)
deriving DecidableEq

/-- Embedding of `makeTransaction` (`csv-import.ts` lines 80-95); the
`nanoid()` value is the explicit `id` argument. -/
def makeTransaction (id : String) (date : ℤ) (rawAmount : ℚ)
    (description : String) : CsvTransaction :=
  let isCredit := decide (0 < rawAmount)
  { id := id
    date := date
    amount := toMinorUnits rawAmount
    rawAmount := rawAmount
    isCredit := isCredit
    description := trimStr description
    selected := !isCredit }

/-- The row-local diagnostic template `Row ${i + 1}: ...` shared by every
row parser (the loop index `i` is 0-based, the reported row 1-based). -/
def rowMsg (i : Nat) (tail : String) : String :=
  "Row " ++ toString (i + 1) ++ ": " ++ tail

/-- Chase header keyword test (`csv-import.ts` lines 106-111). -/
def chaseHeaderTest (l : String) : Bool :=
  let f := lowerStr l
  hasSubstrS f "transaction date" && hasSubstrS f "post date" &&
    hasSubstrS f "category" && hasSubstrS f "type"

/-- Capital One header keyword test (`csv-import.ts` lines 116-121). -/
def capitalOneHeaderTest (l : String) : Bool :=
  let f := lowerStr l
  hasSubstrS f "transaction date" && hasSubstrS f "posted date" &&
    hasSubstrS f "debit" && hasSubstrS f "credit"

/-- Bank of America header keyword test (`csv-import.ts` lines 126-130). -/
def bofaHeaderTest (l : String) : Bool :=
  let f := lowerStr l
  hasSubstrS f "date" && hasSubstrS f "description" &&
    hasSubstrS f "running bal"

/-- Wells Fargo structural test (`csv-import.ts` lines 135-136): exactly 5
fields, third field literally `*`. -/
def wellsStructTest (l : String) : Bool :=
  let fields := splitCsvLine l
  decide (fields.length = 5) && decide (fields.getD 2 "" = "*")

/-- The body of `detectCsvFormat` applied to the first non-blank line:
first-match-wins over chase, capital-one, bank-of-america, then the
headerless structural rule. -/
def detectFromFirst (l0 : String) : Option CsvFormat :=
  if chaseHeaderTest l0 then some .chase
  else if capitalOneHeaderTest l0 then some .capitalOne
  else if bofaHeaderTest l0 then some .bankOfAmerica
  else if wellsStructTest l0 then some .wellsFargo
  else none

/-- Embedding of `detectCsvFormat` (`csv-import.ts` lines 99-141). -/
def detectCsvFormat (text : String) : Option CsvFormat :=
  match (nonBlankLines text).head? with
  | none => none
  | some l0 => detectFromFirst l0

/-- Loop of `parseWellsFargo` (`csv-import.ts` lines 145-177): exactly 5
columns, date in column 0, signed amount in column 1, description in
column 4; processes every line (no header). -/
def parseWellsFargoAux (ids : Nat → String) :
    List String → Nat → List CsvTransaction → CsvParseResult
  | [], _, acc => .success acc .wellsFargo
  | l :: rest, i, acc =>
    let fields := splitCsvLine l
    if fields.length ≠ 5 then
      .failure (rowMsg i ("Expected 5 columns but found " ++
        toString fields.length ++ "."))
    else
      match parseDate (fields.getD 0 "") with
      | none => .failure (rowMsg i ("Invalid date \"" ++ fields.getD 0 "" ++ "\"."))
      | some date =>
        match parseFloat (fields.getD 1 "") with
        | none =>
          .failure (rowMsg i ("Invalid amount \"" ++ fields.getD 1 "" ++ "\"."))
        | some rawAmount =>
          parseWellsFargoAux ids rest (i + 1)
            (acc ++ [makeTransaction (ids i) date rawAmount (fields.getD 4 "")])

/-- Embedding of `parseWellsFargo` (`csv-import.ts` lines 145-177). -/
def parseWellsFargo (ids : Nat → String) (lines : List String) : CsvParseResult :=
  parseWellsFargoAux ids lines 0 []

/-- Loop of `parseChase` (`csv-import.ts` lines 179-215): at least 6
columns, date in column 0, signed amount in column 5, description in
column 2; the header row (index 0) is skipped. -/
def parseChaseAux (ids : Nat → String) :
    List String → Nat → List CsvTransaction → CsvParseResult
  | [], _, acc => .success acc .chase
  | l :: rest, i, acc =>
    let fields := splitCsvLine l
    if fields.length < 6 then
      .failure (rowMsg i ("Expected at least 6 columns but found " ++
        toString fields.length ++ "."))
    else
      match parseDate (fields.getD 0 "") with
      | none => .failure (rowMsg i ("Invalid date \"" ++ fields.getD 0 "" ++ "\"."))
      | some date =>
        match parseFloat (fields.getD 5 "") with
        | none =>
          .failure (rowMsg i ("Invalid amount \"" ++ fields.getD 5 "" ++ "\"."))
        | some rawAmount =>
          parseChaseAux ids rest (i + 1)
            (acc ++ [makeTransaction (ids i) date rawAmount (fields.getD 2 "")])

/-- Embedding of `parseChase` (`csv-import.ts` lines 179-215): the loop
starts at row index 1. -/
def parseChase (ids : Nat → String) (lines : List String) : CsvParseResult :=
  parseChaseAux ids (lines.drop 1) 1 []

/-- Loop of `parseBankOfAmerica` (`csv-import.ts` lines 217-253): at least
3 columns, date in column 0, signed amount in column 2, description in
column 1; the header row is skipped. -/
def parseBankOfAmericaAux (ids : Nat → String) :
    List String → Nat → List CsvTransaction → CsvParseResult
  | [], _, acc => .success acc .bankOfAmerica
  | l :: rest, i, acc =>
    let fields := splitCsvLine l
    if fields.length < 3 then
      .failure (rowMsg i ("Expected at least 3 columns but found " ++
        toString fields.length ++ "."))
    else
      match parseDate (fields.getD 0 "") with
      | none => .failure (rowMsg i ("Invalid date \"" ++ fields.getD 0 "" ++ "\"."))
      | some date =>
        match parseFloat (fields.getD 2 "") with
        | none =>
          .failure (rowMsg i ("Invalid amount \"" ++ fields.getD 2 "" ++ "\"."))
        | some rawAmount =>
          parseBankOfAmericaAux ids rest (i + 1)
            (acc ++ [makeTransaction (ids i) date rawAmount (fields.getD 1 "")])

/-- Embedding of `parseBankOfAmerica` (`csv-import.ts` lines 217-253). -/
def parseBankOfAmerica (ids : Nat → String) (lines : List String) : CsvParseResult :=
  parseBankOfAmericaAux ids (lines.drop 1) 1 []

/-- Embedding of `!isNaN(parseFloat(f)) && f.trim() !== ''` — is a debit/credit column
value present and parseable (`csv-import.ts` lines 280-281)? -/
def hasAmt (f : String) : Bool :=
  (parseFloat f).isSome && decide (trimStr f ≠ "")

/-- Loop of `parseCapitalOne` (`csv-import.ts` lines 255-298): at least 7
columns, date in column 0, debit in column 5, credit in column 6,
description in column 3; a present debit wins and is negated in absolute
value, otherwise the credit's absolute value is used; the header row is
skipped. -/
def parseCapitalOneAux (ids : Nat → String) :
    List String → Nat → List CsvTransaction → CsvParseResult
  | [], _, acc => .success acc .capitalOne
  | l :: rest, i, acc =>
    let fields := splitCsvLine l
    if fields.length < 7 then
      .failure (rowMsg i ("Expected at least 7 columns but found " ++
        toString fields.length ++ "."))
    else
      match parseDate (fields.getD 0 "") with
      | none => .failure (rowMsg i ("Invalid date \"" ++ fields.getD 0 "" ++ "\"."))
      | some date =>
        let debit := parseFloat (fields.getD 5 "")
        let credit := parseFloat (fields.getD 6 "")
        let hasDebit := hasAmt (fields.getD 5 "")
        let hasCredit := hasAmt (fields.getD 6 "")
        if !hasDebit && !hasCredit then
          .failure (rowMsg i "No debit or credit amount found.")
        else
          let rawAmount : ℚ :=
            if hasDebit then -(ratAbs (debit.getD 0)) else ratAbs (credit.getD 0)
          parseCapitalOneAux ids rest (i + 1)
            (acc ++ [makeTransaction (ids i) date rawAmount (fields.getD 3 "")])

/-- Embedding of `parseCapitalOne` (`csv-import.ts` lines 255-298). -/
def parseCapitalOne (ids : Nat → String) (lines : List String) : CsvParseResult :=
  parseCapitalOneAux ids (lines.drop 1) 1 []

/-- The `parsers` dispatch record (`csv-import.ts` lines 302-310). -/
def runParser : CsvFormat → (Nat → String) → List String → CsvParseResult
  | .wellsFargo => parseWellsFargo
  | .chase => parseChase
  | .bankOfAmerica => parseBankOfAmerica
  | .capitalOne => parseCapitalOne

/-- Embedding of `format ?? detectCsvFormat(text)` (`csv-import.ts` line 318): the
explicit override wins, otherwise detection runs. -/
def resolvedFormat (text : String) (format : Option CsvFormat) : Option CsvFormat :=
  match format with
  | some f => some f
  | none => detectCsvFormat text

/-- Embedding of `parseCsv` (`csv-import.ts` lines 312-334): filter blank
lines, fail on empty input, resolve the format (explicit override first,
else detection), dispatch, and turn an empty successful parse into the
fixed no-valid-transactions failure. -/
def parseCsv (ids : Nat → String) (text : String) (format : Option CsvFormat) :
    CsvParseResult :=
  let lines := nonBlankLines text
  if lines.isEmpty then .failure "The file is empty."
  else
    match resolvedFormat text format with
    | none =>
      .failure "Could not detect the CSV format. Please select your bank format manually."
    | some f =>
      match runParser f ids lines with
      | .success [] _ => .failure "No valid transactions found in the file."
      | r => r

/-- A fixed identity source, used by concrete evaluations. -/
def ids0 : Nat → String := fun _ => ""

/-- Dropping trailing whitespace only, via reversal. -/
def trimRight (l : List Char) : List Char :=
  (l.reverse.dropWhile isJsWs).reverse

/-- The shared construction laws every transaction built by
`makeTransaction` satisfies. -/
def txWellFormed (tx : CsvTransaction) : Prop :=
  tx.amount = ⌊|tx.rawAmount| * 100 + 1 / 2⌋ ∧
  tx.isCredit = decide (0 < tx.rawAmount) ∧
  tx.selected = !tx.isCredit

/-- A field-content character that is not a quote, not the delimiter and
not whitespace. -/
def plainChar (c : Char) : Prop :=
  c ≠ '"' ∧ c ≠ ',' ∧ isJsWs c = false

instance (c : Char) : Decidable (plainChar c) := by
  unfold plainChar
  infer_instance

/-- The outcome of the Wells Fargo per-row checks (`csv-import.ts` lines
148-172) on one line with 0-based row index `i`: the diagnostic the row
would produce, or `none` when the row is accepted. -/
def wfRowError (i : Nat) (l : String) : Option String :=
  let fields := splitCsvLine l
  if fields.length ≠ 5 then
    some (rowMsg i ("Expected 5 columns but found " ++ toString fields.length ++ "."))
  else
    match parseDate (fields.getD 0 "") with
    | none => some (rowMsg i ("Invalid date \"" ++ fields.getD 0 "" ++ "\"."))
    | some _ =>
      match parseFloat (fields.getD 1 "") with
      | none => some (rowMsg i ("Invalid amount \"" ++ fields.getD 1 "" ++ "\"."))
      | some _ => none

/-- The outcome of the Chase per-row checks (`csv-import.ts` lines
184-208) on one line with 0-based row index `i`. -/
def chRowError (i : Nat) (l : String) : Option String :=
  let fields := splitCsvLine l
  if fields.length < 6 then
    some (rowMsg i ("Expected at least 6 columns but found " ++
      toString fields.length ++ "."))
  else
    match parseDate (fields.getD 0 "") with
    | none => some (rowMsg i ("Invalid date \"" ++ fields.getD 0 "" ++ "\"."))
    | some _ =>
      match parseFloat (fields.getD 5 "") with
      | none => some (rowMsg i ("Invalid amount \"" ++ fields.getD 5 "" ++ "\"."))
      | some _ => none

/-- The outcome of the Bank of America per-row checks (`csv-import.ts`
lines 222-246) on one line with 0-based row index `i`. -/
def boRowError (i : Nat) (l : String) : Option String :=
  let fields := splitCsvLine l
  if fields.length < 3 then
    some (rowMsg i ("Expected at least 3 columns but found " ++
      toString fields.length ++ "."))
  else
    match parseDate (fields.getD 0 "") with
    | none => some (rowMsg i ("Invalid date \"" ++ fields.getD 0 "" ++ "\"."))
    | some _ =>
      match parseFloat (fields.getD 2 "") with
      | none => some (rowMsg i ("Invalid amount \"" ++ fields.getD 2 "" ++ "\"."))
      | some _ => none

/-- The outcome of the Capital One per-row checks (`csv-import.ts` lines
260-288) on one line with 0-based row index `i`. -/
def coRowError (i : Nat) (l : String) : Option String :=
  let fields := splitCsvLine l
  if fields.length < 7 then
    some (rowMsg i ("Expected at least 7 columns but found " ++
      toString fields.length ++ "."))
  else
    match parseDate (fields.getD 0 "") with
    | none => some (rowMsg i ("Invalid date \"" ++ fields.getD 0 "" ++ "\"."))
    | some _ =>
      if !hasAmt (fields.getD 5 "") && !hasAmt (fields.getD 6 "") then
        some (rowMsg i "No debit or credit amount found.")
      else none

/-- Equality of transactions in every field except `id` (the `nanoid`
identity). -/
def txEqExceptId (t1 t2 : CsvTransaction) : Prop :=
  t1.date = t2.date ∧ t1.amount = t2.amount ∧ t1.rawAmount = t2.rawAmount ∧
  t1.isCredit = t2.isCredit ∧ t1.description = t2.description ∧
  t1.selected = t2.selected

/-- Equality of parse outcomes up to transaction identity: identical
failures, or successes with the same format and pointwise id-excepted
equal transaction lists. -/
def resultEqExceptId : CsvParseResult → CsvParseResult → Prop
  | .success ts1 f1, .success ts2 f2 => f1 = f2 ∧ List.Forall₂ txEqExceptId ts1 ts2
  | .failure e1, .failure e2 => e1 = e2
  | _, _ => False

/-- The first non-blank line of the input, the only line detection ever
reads. -/
def firstNonBlankLine (text : String) : Option String :=
  (nonBlankLines text).head?

/-! ## Helper lemmas about the embedded primitives -/

theorem dropWhile_head_not {p : Char → Bool} :
    ∀ (l : List Char) (c : Char), (l.dropWhile p).head? = some c → p c = false := by
  intro l
  induction l with
  | nil => intro c h; simp [List.dropWhile] at h
  | cons a t ih =>
    intro c h
    rw [List.dropWhile_cons] at h
    by_cases ha : p a = true
    · rw [if_pos ha] at h; exact ih c h
    · rw [if_neg ha] at h
      simp only [List.head?] at h
      cases h
      simpa using ha

theorem dropWhile_of_head_not {p : Char → Bool} (l : List Char)
    (h : ∀ c, l.head? = some c → p c = false) : l.dropWhile p = l := by
  cases l with
  | nil => rfl
  | cons a t =>
    rw [List.dropWhile_cons, if_neg]
    simp [h a rfl]

theorem dropWhile_dropWhile {p : Char → Bool} (l : List Char) :
    (l.dropWhile p).dropWhile p = l.dropWhile p := by
  apply dropWhile_of_head_not
  intro c h
  exact dropWhile_head_not l c h

theorem trimChars_eq_trimRight (l : List Char) :
    trimChars l = trimRight (l.dropWhile isJsWs) := rfl

theorem trimRight_head {l : List Char} {c : Char}
    (h : (trimRight l).head? = some c) : l.head? = some c := by
  obtain ⟨t, ht⟩ := List.dropWhile_suffix (l := l.reverse) isJsWs
  have hl : l = trimRight l ++ t.reverse := by
    have := congrArg List.reverse ht
    simpa [trimRight, List.reverse_append] using this.symm
  rw [hl]
  cases hr : trimRight l with
  | nil => rw [hr] at h; simp at h
  | cons a u => rw [hr] at h; simpa using h

theorem trimRight_trimRight (l : List Char) :
    trimRight (trimRight l) = trimRight l := by
  unfold trimRight
  rw [List.reverse_reverse, dropWhile_dropWhile]

theorem trimChars_idem (l : List Char) :
    trimChars (trimChars l) = trimChars l := by
  rw [trimChars_eq_trimRight, trimChars_eq_trimRight]
  have h1 : (trimRight (l.dropWhile isJsWs)).dropWhile isJsWs
      = trimRight (l.dropWhile isJsWs) := by
    apply dropWhile_of_head_not
    intro c hc
    exact dropWhile_head_not l c (trimRight_head hc)
  rw [h1, trimRight_trimRight]

theorem trimChars_of_no_ws {l : List Char}
    (h : ∀ c ∈ l, isJsWs c = false) : trimChars l = l := by
  have h1 : l.dropWhile isJsWs = l := by
    apply dropWhile_of_head_not
    intro c hc
    cases l with
    | nil => simp at hc
    | cons a t =>
      simp only [List.head?] at hc
      cases hc
      exact h _ (List.mem_cons_self _ _)
  have h2 : l.reverse.dropWhile isJsWs = l.reverse := by
    apply dropWhile_of_head_not
    intro c hc
    have : c ∈ l.reverse := by
      cases hr : l.reverse with
      | nil => rw [hr] at hc; simp at hc
      | cons a t => rw [hr] at hc; simp only [List.head?] at hc; cases hc; simp
    exact h _ (List.mem_reverse.mp this)
  unfold trimChars
  rw [h1, h2, List.reverse_reverse]

theorem charDigit_toNat_le {c : Char} (h : c.isDigit = true) : c.toNat - 48 ≤ 9 := by
  simp only [Char.isDigit, Bool.and_eq_true, decide_eq_true_eq] at h
  have : c.val.toNat ≤ 57 := UInt32.le_def.mp h.2
  simp only [Char.toNat]
  omega

theorem digitsVal_aux_lt : ∀ (l : List Char), (∀ c ∈ l, c.isDigit = true) →
    ∀ a : Nat, l.foldl (fun a c => a * 10 + (c.toNat - 48)) a < (a + 1) * 10 ^ l.length := by
  intro l
  induction l with
  | nil => intro _ a; simp
  | cons c t ih =>
    intro h a
    have hc : c.toNat - 48 ≤ 9 := charDigit_toNat_le (h c (List.mem_cons_self _ _))
    have ht : ∀ x ∈ t, x.isDigit = true := fun x hx => h x (List.mem_cons_of_mem _ hx)
    have hstep := ih ht (a * 10 + (c.toNat - 48))
    calc List.foldl (fun a c => a * 10 + (c.toNat - 48)) (a * 10 + (c.toNat - 48)) t
        < (a * 10 + (c.toNat - 48) + 1) * 10 ^ t.length := hstep
      _ ≤ (a + 1) * 10 ^ (c :: t).length := by
          simp only [List.length_cons, pow_succ]
          nlinarith [pow_pos (by norm_num : (0:ℕ) < 10) t.length]

theorem digitsVal_lt {l : List Char} (h : ∀ c ∈ l, c.isDigit = true) :
    digitsVal l < 10 ^ l.length := by
  have := digitsVal_aux_lt l h 0
  simpa [digitsVal] using this

theorem ratAbs_eq (q : ℚ) : ratAbs q = |q| :=
  (Rat.abs_def q).symm

theorem decValue_eq (ip fp : List Char) :
    decValue ip fp = (digitsVal ip : ℚ) + (digitsVal fp : ℚ) / 10 ^ fp.length := by
  rw [decValue, Rat.mkRat_eq_div]
  have h10 : ((10 ^ fp.length : ℕ) : ℚ) ≠ 0 := by positivity
  push_cast
  field_simp

theorem toMinorUnits_eq_floor (d : ℚ) : toMinorUnits d = ⌊|d| * 100 + 1 / 2⌋ := by
  have habs : |d| = ((d.num.natAbs : ℤ) : ℚ) / ((d.den : ℕ) : ℚ) := by
    rw [Rat.abs_def, Rat.divInt_eq_div]
    push_cast
    rfl
  have h2 : |d| * 100 + 1 / 2
      = ((200 * (d.num.natAbs : ℤ) + (d.den : ℤ) : ℤ) : ℚ)
        / (((2 * d.den : ℕ) : ℕ) : ℚ) := by
    have hden : ((d.den : ℕ) : ℚ) ≠ 0 := by
      have hnz := d.den_nz
      simp only [ne_eq, Nat.cast_eq_zero]
      exact hnz
    rw [habs]
    push_cast
    field_simp
    ring
  rw [toMinorUnits, h2, Rat.floor_intCast_div_natCast]
  push_cast
  rfl

theorem makeTransaction_wellFormed (id : String) (d : ℤ) (q : ℚ) (desc : String) :
    txWellFormed (makeTransaction id d q desc) := by
  refine ⟨?_, rfl, rfl⟩
  exact toMinorUnits_eq_floor q

theorem matchDatePattern_bounds {l : List Char} {mo da yr : Nat}
    (h : matchDatePattern l = some (mo, da, yr)) :
    mo < 100 ∧ da < 100 ∧ yr < 10000 := by
  have hgen : ∀ (x : List Char) (k : Nat), (x.takeWhile Char.isDigit).length ≤ k →
      digitsVal (x.takeWhile Char.isDigit) < 10 ^ k := by
    intro x k hk
    exact lt_of_lt_of_le (digitsVal_lt (fun c hc => List.mem_takeWhile_imp hc))
      (Nat.pow_le_pow_right (by norm_num) hk)
  simp only [matchDatePattern] at h
  split at h
  case _ h1 =>
    split at h
    case _ r2 hr1 =>
      split at h
      case _ h2 =>
        split at h
        case _ r4 hr3 =>
          split at h
          case _ h3 =>
            cases h
            refine ⟨hgen l 2 h1.2, hgen r2 2 h2.2, ?_⟩
            have := hgen r4 4 (le_of_eq h3.1)
            simpa using this
          case _ => exact absurd h (by simp)
        case _ => exact absurd h (by simp)
      case _ => exact absurd h (by simp)
    case _ => exact absurd h (by simp)
  case _ => exact absurd h (by simp)

theorem jsMakeDateMs_inRange (mo da yr : Nat) (hmo : mo < 100) (hda : da < 100)
    (hyr : yr < 10000) :
    (jsMakeDateMs (if yr ≤ 99 then (yr : ℤ) + 1900 else (yr : ℤ))
        ((mo : ℤ) - 1) (da : ℤ) 12).natAbs ≤ 8640000000000000 := by
  simp only [jsMakeDateMs, daysFromCivil]
  split_ifs <;> omega

theorem parseDate_none_of_no_match {s : String}
    (h : matchDatePattern s.data = none) : parseDate s = none := by
  simp [parseDate, h]

theorem parseDate_some_of_match {s : String} {mo da yr : Nat}
    (h : matchDatePattern s.data = some (mo, da, yr)) :
    parseDate s = some (jsMakeDateMs
      (if yr ≤ 99 then (yr : ℤ) + 1900 else (yr : ℤ)) ((mo : ℤ) - 1) (da : ℤ) 12) := by
  obtain ⟨h1, h2, h3⟩ := matchDatePattern_bounds h
  simp only [parseDate, h]
  rw [if_pos (jsMakeDateMs_inRange mo da yr h1 h2 h3)]

theorem digit_not_ws {c : Char} (h : c.isDigit = true) : isJsWs c = false := by
  by_contra hne
  rw [Bool.not_eq_false] at hne
  simp only [isJsWs, Bool.or_eq_true, decide_eq_true_eq] at hne
  rcases hne with ((((rfl | rfl) | rfl) | rfl) | rfl) | rfl <;>
    exact absurd h (by decide)

theorem takeWhile_append_of_all {p : Char → Bool} :
    ∀ (a b : List Char), (∀ c ∈ a, p c = true) →
    (∀ c, b.head? = some c → p c = false) →
    (a ++ b).takeWhile p = a ∧ (a ++ b).dropWhile p = b := by
  intro a
  induction a with
  | nil =>
    intro b _ hb
    constructor
    · cases b with
      | nil => rfl
      | cons c t => simp [List.takeWhile_cons, hb c rfl]
    · cases b with
      | nil => rfl
      | cons c t => simp [List.dropWhile_cons, hb c rfl]
  | cons x a ih =>
    intro b ha hb
    have hx : p x = true := ha x (List.mem_cons_self _ _)
    obtain ⟨ht, hd⟩ := ih b (fun c hc => ha c (List.mem_cons_of_mem _ hc)) hb
    constructor
    · simp [List.takeWhile_cons, hx, ht]
    · simp [List.dropWhile_cons, hx, hd]

theorem parseExp_junk (q : ℚ) (c : Char) (junk : List Char)
    (h3 : c ≠ 'e') (h4 : c ≠ 'E') : parseExp q (c :: junk) = q := by
  unfold parseExp
  split <;> first
    | rfl
    | (rename_i heq; rw [List.cons.injEq] at heq; exact absurd heq.1 (by assumption))

theorem digit_ne_chars {c : Char} (h : c.isDigit = true) :
    c ≠ '+' ∧ c ≠ '-' ∧ c ≠ '.' := by
  refine ⟨?_, ?_, ?_⟩ <;> rintro rfl <;> exact absurd h (by decide)

theorem parseFloatChars_default (x : Char) (r : List Char)
    (h1 : x ≠ '+') (h2 : x ≠ '-') :
    parseFloatChars (x :: r)
      = (parseMantissa (x :: r)).map (fun p => parseExp p.1 p.2) := by
  unfold parseFloatChars
  split
  · rename_i heq
    rw [List.cons.injEq] at heq
    exact absurd heq.1 h1
  · rename_i heq
    rw [List.cons.injEq] at heq
    exact absurd heq.1 h2
  · rfl

/-- JS `parseFloat` on a decimal literal followed by non-extending junk:
the junk is ignored and the literal's exact value is returned. -/
theorem parseFloat_decimal_junk (ip fp junk : List Char) (c : Char)
    (hip : ∀ x ∈ ip, x.isDigit = true) (hfp : ∀ x ∈ fp, x.isDigit = true)
    (hne : ¬(ip = [] ∧ fp = []))
    (hc1 : c.isDigit = false) (hc3 : c ≠ 'e') (hc4 : c ≠ 'E') :
    parseFloat (String.mk (ip ++ '.' :: fp ++ c :: junk)) = some (decValue ip fp) := by
  have hassoc : ip ++ '.' :: fp ++ c :: junk = ip ++ '.' :: (fp ++ c :: junk) := by
    simp
  have hmant : parseMantissa (ip ++ '.' :: (fp ++ c :: junk))
      = some (decValue ip fp, c :: junk) := by
    obtain ⟨ht1, hd1⟩ := takeWhile_append_of_all ip ('.' :: (fp ++ c :: junk)) hip
      (by intro x hx; simp only [List.head?] at hx; cases hx; decide)
    obtain ⟨ht2, hd2⟩ := takeWhile_append_of_all fp (c :: junk) hfp
      (by intro x hx; simp only [List.head?] at hx; cases hx; exact hc1)
    simp only [parseMantissa, ht1, hd1, ht2, hd2]
    rw [if_neg]
    simp only [List.isEmpty_iff]
    exact hne
  have hexp : parseExp (decValue ip fp) (c :: junk) = decValue ip fp :=
    parseExp_junk _ c junk hc3 hc4
  have hdrop : (ip ++ '.' :: (fp ++ c :: junk)).dropWhile isJsWs
      = ip ++ '.' :: (fp ++ c :: junk) := by
    apply dropWhile_of_head_not
    intro x hx
    cases ip with
    | nil =>
      simp only [List.nil_append, List.head?] at hx
      cases hx
      decide
    | cons y t =>
      simp only [List.cons_append, List.head?] at hx
      cases hx
      exact digit_not_ws (hip _ (List.mem_cons_self _ _))
  have hchars : parseFloatChars (ip ++ '.' :: (fp ++ c :: junk))
      = some (decValue ip fp) := by
    cases ip with
    | nil =>
      rw [List.nil_append]
      rw [parseFloatChars_default '.' (fp ++ c :: junk) (by decide) (by decide)]
      rw [show ('.' :: (fp ++ c :: junk)) = [] ++ '.' :: (fp ++ c :: junk) by rfl,
        hmant]
      simp [hexp]
    | cons y t =>
      have hy := hip y (List.mem_cons_self _ _)
      obtain ⟨hyp, hym, _⟩ := digit_ne_chars hy
      rw [List.cons_append]
      rw [parseFloatChars_default y (t ++ '.' :: (fp ++ c :: junk)) hyp hym]
      rw [← List.cons_append, hmant]
      simp [hexp]
  rw [parseFloat]
  rw [show (String.mk (ip ++ '.' :: fp ++ c :: junk)).data
    = ip ++ '.' :: fp ++ c :: junk by rfl]
  rw [hassoc, hdrop]
  exact hchars

theorem splitCsvAux_quoted_append : ∀ (a : List Char), (∀ c ∈ a, c ≠ '"') →
    ∀ (r cur : List Char) (acc : List (List Char)),
    splitCsvAux (a ++ r) true cur acc = splitCsvAux r true (cur ++ a) acc := by
  intro a
  induction a with
  | nil => intro _ r cur acc; simp
  | cons c a ih =>
    intro h r cur acc
    have hc : c ≠ '"' := h c (List.mem_cons_self _ _)
    rw [List.cons_append]
    rw [splitCsvAux.eq_5 true cur acc c (a ++ r) (fun hq => hc hq)
      (fun _ hq _ _ => hc hq) (fun _ hf => by cases hf)]
    rw [ih (fun x hx => h x (List.mem_cons_of_mem _ hx)) r (cur ++ [c]) acc]
    simp

theorem splitCsvAux_all_trimmed : ∀ (l : List Char) (b : Bool) (cur : List Char)
    (acc : List (List Char)), (∀ f ∈ acc, trimChars f = f) →
    ∀ f ∈ splitCsvAux l b cur acc, trimChars f = f := by
  intro l b cur acc
  induction l, b, cur, acc using splitCsvAux.induct with
  | case1 b cur acc =>
    intro hacc f hf
    rw [splitCsvAux.eq_1] at hf
    rcases List.mem_append.mp hf with hl | hr
    · exact hacc f hl
    · rw [List.mem_singleton.mp hr]
      exact trimChars_idem cur
  | case2 rest cur acc ih =>
    intro hacc f hf
    rw [splitCsvAux.eq_2] at hf
    exact ih hacc f hf
  | case3 rest inQuotes cur acc hside ih =>
    intro hacc f hf
    rw [splitCsvAux.eq_3 _ _ _ _ hside] at hf
    exact ih hacc f hf
  | case4 rest cur acc ih =>
    intro hacc f hf
    rw [splitCsvAux.eq_4] at hf
    refine ih ?_ f hf
    intro g hg
    rcases List.mem_append.mp hg with hl | hr
    · exact hacc g hl
    · rw [List.mem_singleton.mp hr]
      exact trimChars_idem cur
  | case5 c rest inQuotes cur acc h1 h2 h3 ih =>
    intro hacc f hf
    rw [splitCsvAux.eq_5 _ _ _ _ _ h2 h1 h3] at hf
    exact ih hacc f hf

theorem trimChars_of_plain_append (a b : List Char) (x : Char)
    (ha : ∀ c ∈ a, plainChar c) (hb : ∀ c ∈ b, plainChar c)
    (hx : isJsWs x = false) : trimChars (a ++ x :: b) = a ++ x :: b := by
  apply trimChars_of_no_ws
  intro c hc
  rcases List.mem_append.mp hc with h | h
  · exact (ha c h).2.2
  · rcases List.mem_cons.mp h with h | h
    · rw [h]; exact hx
    · exact (hb c h).2.2

theorem splitCsv_quoted_comma (a b : List Char)
    (ha : ∀ c ∈ a, plainChar c) (hb : ∀ c ∈ b, plainChar c) :
    splitCsvLine (String.mk ('"' :: a ++ ',' :: b ++ ['"']))
      = [String.mk (a ++ ',' :: b)] := by
  unfold splitCsvLine
  rw [show (String.mk ('"' :: a ++ ',' :: b ++ ['"'])).data
      = '"' :: (a ++ ',' :: (b ++ ['"'])) by simp]
  rw [splitCsvAux.eq_3 false [] [] _ (fun _ _ hf => by cases hf)]
  rw [Bool.not_false]
  rw [splitCsvAux_quoted_append a (fun c hc => (ha c hc).1) (',' :: (b ++ ['"'])) [] []]
  rw [splitCsvAux.eq_5 true ([] ++ a) [] ',' (b ++ ['"'])
    (fun hq => by cases hq) (fun _ hq _ _ => by cases hq) (fun _ hf => by cases hf)]
  rw [splitCsvAux_quoted_append b (fun c hc => (hb c hc).1) ['"'] _ []]
  rw [splitCsvAux.eq_3 true _ [] [] (fun _ hf _ => by cases hf)]
  rw [Bool.not_true]
  rw [splitCsvAux.eq_1]
  have : ([] ++ a ++ [','] ++ b) = a ++ ',' :: b := by simp
  rw [this]
  rw [trimChars_of_plain_append a b ',' ha hb (by decide)]
  simp

theorem splitCsv_escaped_quote (a b : List Char)
    (ha : ∀ c ∈ a, plainChar c) (hb : ∀ c ∈ b, plainChar c) :
    splitCsvLine (String.mk ('"' :: a ++ '"' :: '"' :: b ++ ['"']))
      = [String.mk (a ++ '"' :: b)] := by
  unfold splitCsvLine
  rw [show (String.mk ('"' :: a ++ '"' :: '"' :: b ++ ['"'])).data
      = '"' :: (a ++ '"' :: '"' :: (b ++ ['"'])) by simp]
  rw [splitCsvAux.eq_3 false [] [] _ (fun _ _ hf => by cases hf)]
  rw [Bool.not_false]
  rw [splitCsvAux_quoted_append a (fun c hc => (ha c hc).1) ('"' :: '"' :: (b ++ ['"'])) [] []]
  rw [splitCsvAux.eq_2]
  rw [splitCsvAux_quoted_append b (fun c hc => (hb c hc).1) ['"'] _ []]
  rw [splitCsvAux.eq_3 true _ [] [] (fun _ hf _ => by cases hf)]
  rw [Bool.not_true]
  rw [splitCsvAux.eq_1]
  have : ([] ++ a ++ ['"'] ++ b) = a ++ '"' :: b := by simp
  rw [this]
  have htr : trimChars (a ++ '"' :: b) = a ++ '"' :: b :=
    trimChars_of_plain_append a b '"' ha hb (by decide)
  rw [htr]
  simp

theorem wfAux_step (ids : Nat → String) (rest : List String)
    (acc : List CsvTransaction) (i : Nat) (l : String) :
    (∀ e, wfRowError i l = some e →
      parseWellsFargoAux ids (l :: rest) i acc = .failure e) ∧
    (wfRowError i l = none → ∃ tx, txWellFormed tx ∧
      parseWellsFargoAux ids (l :: rest) i acc
        = parseWellsFargoAux ids rest (i + 1) (acc ++ [tx])) := by
  by_cases h5 : (splitCsvLine l).length ≠ 5
  · constructor
    · intro e he
      simp only [wfRowError, if_pos h5] at he
      simp only [parseWellsFargoAux, if_pos h5]
      cases he
      rfl
    · intro hn
      simp only [wfRowError, if_pos h5] at hn
      cases hn
  · cases hd : parseDate ((splitCsvLine l).getD 0 "") with
    | none =>
      constructor
      · intro e he
        simp only [wfRowError, if_neg h5, hd] at he
        simp only [parseWellsFargoAux, if_neg h5, hd]
        cases he
        rfl
      · intro hn
        simp only [wfRowError, if_neg h5, hd] at hn
        cases hn
    | some d =>
      cases hf : parseFloat ((splitCsvLine l).getD 1 "") with
      | none =>
        constructor
        · intro e he
          simp only [wfRowError, if_neg h5, hd, hf] at he
          simp only [parseWellsFargoAux, if_neg h5, hd, hf]
          cases he
          rfl
        · intro hn
          simp only [wfRowError, if_neg h5, hd, hf] at hn
          cases hn
      | some q =>
        constructor
        · intro e he
          simp only [wfRowError, if_neg h5, hd, hf] at he
          cases he
        · intro _
          refine ⟨makeTransaction (ids i) d q ((splitCsvLine l).getD 4 ""),
            makeTransaction_wellFormed _ _ _ _, ?_⟩
          simp only [parseWellsFargoAux, if_neg h5, hd, hf]

theorem chAux_step (ids : Nat → String) (rest : List String)
    (acc : List CsvTransaction) (i : Nat) (l : String) :
    (∀ e, chRowError i l = some e →
      parseChaseAux ids (l :: rest) i acc = .failure e) ∧
    (chRowError i l = none → ∃ tx, txWellFormed tx ∧
      parseChaseAux ids (l :: rest) i acc
        = parseChaseAux ids rest (i + 1) (acc ++ [tx])) := by
  by_cases h6 : (splitCsvLine l).length < 6
  · constructor
    · intro e he
      simp only [chRowError, if_pos h6] at he
      simp only [parseChaseAux, if_pos h6]
      cases he
      rfl
    · intro hn
      simp only [chRowError, if_pos h6] at hn
      cases hn
  · cases hd : parseDate ((splitCsvLine l).getD 0 "") with
    | none =>
      constructor
      · intro e he
        simp only [chRowError, if_neg h6, hd] at he
        simp only [parseChaseAux, if_neg h6, hd]
        cases he
        rfl
      · intro hn
        simp only [chRowError, if_neg h6, hd] at hn
        cases hn
    | some d =>
      cases hf : parseFloat ((splitCsvLine l).getD 5 "") with
      | none =>
        constructor
        · intro e he
          simp only [chRowError, if_neg h6, hd, hf] at he
          simp only [parseChaseAux, if_neg h6, hd, hf]
          cases he
          rfl
        · intro hn
          simp only [chRowError, if_neg h6, hd, hf] at hn
          cases hn
      | some q =>
        constructor
        · intro e he
          simp only [chRowError, if_neg h6, hd, hf] at he
          cases he
        · intro _
          refine ⟨makeTransaction (ids i) d q ((splitCsvLine l).getD 2 ""),
            makeTransaction_wellFormed _ _ _ _, ?_⟩
          simp only [parseChaseAux, if_neg h6, hd, hf]

theorem wfAux_first_defect (ids : Nat → String) :
    ∀ (j : Nat) (lines : List String) (i : Nat) (acc : List CsvTransaction)
      (e : String),
    (∀ k, k < j → wfRowError (i + k) (lines.getD k "") = none) →
    j < lines.length →
    wfRowError (i + j) (lines.getD j "") = some e →
    parseWellsFargoAux ids lines i acc = .failure e := by
  intro j
  induction j with
  | zero =>
    intro lines i acc e _ hlen he
    cases lines with
    | nil => simp at hlen
    | cons l rest =>
      simp only [List.getD_cons_zero, Nat.add_zero] at he
      exact (wfAux_step ids rest acc i l).1 e he
  | succ j ih =>
    intro lines i acc e hok hlen he
    cases lines with
    | nil => simp at hlen
    | cons l rest =>
      have h0 : wfRowError i l = none := by
        have := hok 0 (Nat.succ_pos j)
        simpa using this
      obtain ⟨tx, _, hstep⟩ := (wfAux_step ids rest acc i l).2 h0
      rw [hstep]
      apply ih rest (i + 1) (acc ++ [tx]) e
      · intro k hk
        have := hok (k + 1) (by omega)
        have harith : i + (k + 1) = i + 1 + k := by omega
        rw [harith] at this
        simpa using this
      · simpa using hlen
      · have harith : i + (j + 1) = i + 1 + j := by omega
        rw [harith] at he
        simpa using he

theorem chAux_first_defect (ids : Nat → String) :
    ∀ (j : Nat) (lines : List String) (i : Nat) (acc : List CsvTransaction)
      (e : String),
    (∀ k, k < j → chRowError (i + k) (lines.getD k "") = none) →
    j < lines.length →
    chRowError (i + j) (lines.getD j "") = some e →
    parseChaseAux ids lines i acc = .failure e := by
  intro j
  induction j with
  | zero =>
    intro lines i acc e _ hlen he
    cases lines with
    | nil => simp at hlen
    | cons l rest =>
      simp only [List.getD_cons_zero, Nat.add_zero] at he
      exact (chAux_step ids rest acc i l).1 e he
  | succ j ih =>
    intro lines i acc e hok hlen he
    cases lines with
    | nil => simp at hlen
    | cons l rest =>
      have h0 : chRowError i l = none := by
        have := hok 0 (Nat.succ_pos j)
        simpa using this
      obtain ⟨tx, _, hstep⟩ := (chAux_step ids rest acc i l).2 h0
      rw [hstep]
      apply ih rest (i + 1) (acc ++ [tx]) e
      · intro k hk
        have := hok (k + 1) (by omega)
        have harith : i + (k + 1) = i + 1 + k := by omega
        rw [harith] at this
        simpa using this
      · simpa using hlen
      · have harith : i + (j + 1) = i + 1 + j := by omega
        rw [harith] at he
        simpa using he

theorem wfAux_inv (ids : Nat → String) :
    ∀ (lines : List String) (i : Nat) (acc : List CsvTransaction),
    (∀ tx ∈ acc, txWellFormed tx) →
    ∀ txs f, parseWellsFargoAux ids lines i acc = .success txs f →
    ∀ tx ∈ txs, txWellFormed tx := by
  intro lines
  induction lines with
  | nil =>
    intro i acc hacc txs f h tx htx
    simp only [parseWellsFargoAux, CsvParseResult.success.injEq] at h
    exact hacc tx (h.1 ▸ htx)
  | cons l rest ih =>
    intro i acc hacc txs f h tx htx
    cases hrow : wfRowError i l with
    | some e =>
      rw [(wfAux_step ids rest acc i l).1 e hrow] at h
      cases h
    | none =>
      obtain ⟨t, hwf, hstep⟩ := (wfAux_step ids rest acc i l).2 hrow
      rw [hstep] at h
      refine ih (i + 1) (acc ++ [t]) ?_ txs f h tx htx
      intro g hg
      rcases List.mem_append.mp hg with h1 | h1
      · exact hacc g h1
      · rw [List.mem_singleton.mp h1]
        exact hwf

theorem chAux_inv (ids : Nat → String) :
    ∀ (lines : List String) (i : Nat) (acc : List CsvTransaction),
    (∀ tx ∈ acc, txWellFormed tx) →
    ∀ txs f, parseChaseAux ids lines i acc = .success txs f →
    ∀ tx ∈ txs, txWellFormed tx := by
  intro lines
  induction lines with
  | nil =>
    intro i acc hacc txs f h tx htx
    simp only [parseChaseAux, CsvParseResult.success.injEq] at h
    exact hacc tx (h.1 ▸ htx)
  | cons l rest ih =>
    intro i acc hacc txs f h tx htx
    cases hrow : chRowError i l with
    | some e =>
      rw [(chAux_step ids rest acc i l).1 e hrow] at h
      cases h
    | none =>
      obtain ⟨t, hwf, hstep⟩ := (chAux_step ids rest acc i l).2 hrow
      rw [hstep] at h
      refine ih (i + 1) (acc ++ [t]) ?_ txs f h tx htx
      intro g hg
      rcases List.mem_append.mp hg with h1 | h1
      · exact hacc g h1
      · rw [List.mem_singleton.mp h1]
        exact hwf

theorem boAux_step (ids : Nat → String) (rest : List String)
    (acc : List CsvTransaction) (i : Nat) (l : String) :
    (∀ e, boRowError i l = some e →
      parseBankOfAmericaAux ids (l :: rest) i acc = .failure e) ∧
    (boRowError i l = none → ∃ tx, txWellFormed tx ∧
      parseBankOfAmericaAux ids (l :: rest) i acc
        = parseBankOfAmericaAux ids rest (i + 1) (acc ++ [tx])) := by
  by_cases h3 : (splitCsvLine l).length < 3
  · constructor
    · intro e he
      simp only [boRowError, if_pos h3] at he
      simp only [parseBankOfAmericaAux, if_pos h3]
      cases he
      rfl
    · intro hn
      simp only [boRowError, if_pos h3] at hn
      cases hn
  · cases hd : parseDate ((splitCsvLine l).getD 0 "") with
    | none =>
      constructor
      · intro e he
        simp only [boRowError, if_neg h3, hd] at he
        simp only [parseBankOfAmericaAux, if_neg h3, hd]
        cases he
        rfl
      · intro hn
        simp only [boRowError, if_neg h3, hd] at hn
        cases hn
    | some d =>
      cases hf : parseFloat ((splitCsvLine l).getD 2 "") with
      | none =>
        constructor
        · intro e he
          simp only [boRowError, if_neg h3, hd, hf] at he
          simp only [parseBankOfAmericaAux, if_neg h3, hd, hf]
          cases he
          rfl
        · intro hn
          simp only [boRowError, if_neg h3, hd, hf] at hn
          cases hn
      | some q =>
        constructor
        · intro e he
          simp only [boRowError, if_neg h3, hd, hf] at he
          cases he
        · intro _
          refine ⟨makeTransaction (ids i) d q ((splitCsvLine l).getD 1 ""),
            makeTransaction_wellFormed _ _ _ _, ?_⟩
          simp only [parseBankOfAmericaAux, if_neg h3, hd, hf]

theorem coAux_step (ids : Nat → String) (rest : List String)
    (acc : List CsvTransaction) (i : Nat) (l : String) :
    (∀ e, coRowError i l = some e →
      parseCapitalOneAux ids (l :: rest) i acc = .failure e) ∧
    (coRowError i l = none → ∃ tx, txWellFormed tx ∧
      parseCapitalOneAux ids (l :: rest) i acc
        = parseCapitalOneAux ids rest (i + 1) (acc ++ [tx])) := by
  by_cases h7 : (splitCsvLine l).length < 7
  · constructor
    · intro e he
      simp only [coRowError, if_pos h7] at he
      simp only [parseCapitalOneAux, if_pos h7]
      cases he
      rfl
    · intro hn
      simp only [coRowError, if_pos h7] at hn
      cases hn
  · cases hd : parseDate ((splitCsvLine l).getD 0 "") with
    | none =>
      constructor
      · intro e he
        simp only [coRowError, if_neg h7, hd] at he
        simp only [parseCapitalOneAux, if_neg h7, hd]
        cases he
        rfl
      · intro hn
        simp only [coRowError, if_neg h7, hd] at hn
        cases hn
    | some d =>
      by_cases hb : (!hasAmt ((splitCsvLine l).getD 5 "") &&
          !hasAmt ((splitCsvLine l).getD 6 "")) = true
      · constructor
        · intro e he
          simp only [coRowError, if_neg h7, hd, if_pos hb] at he
          simp only [parseCapitalOneAux, if_neg h7, hd, if_pos hb]
          cases he
          rfl
        · intro hn
          simp only [coRowError, if_neg h7, hd, if_pos hb] at hn
          cases hn
      · constructor
        · intro e he
          simp only [coRowError, if_neg h7, hd, if_neg hb] at he
          cases he
        · intro _
          refine ⟨makeTransaction (ids i) d
            (if hasAmt ((splitCsvLine l).getD 5 "")
              then -(ratAbs ((parseFloat ((splitCsvLine l).getD 5 "")).getD 0))
              else ratAbs ((parseFloat ((splitCsvLine l).getD 6 "")).getD 0))
            ((splitCsvLine l).getD 3 ""),
            makeTransaction_wellFormed _ _ _ _, ?_⟩
          simp only [parseCapitalOneAux, if_neg h7, hd, if_neg hb]

theorem boAux_first_defect (ids : Nat → String) :
    ∀ (j : Nat) (lines : List String) (i : Nat) (acc : List CsvTransaction)
      (e : String),
    (∀ k, k < j → boRowError (i + k) (lines.getD k "") = none) →
    j < lines.length →
    boRowError (i + j) (lines.getD j "") = some e →
    parseBankOfAmericaAux ids lines i acc = .failure e := by
  intro j
  induction j with
  | zero =>
    intro lines i acc e _ hlen he
    cases lines with
    | nil => simp at hlen
    | cons l rest =>
      simp only [List.getD_cons_zero, Nat.add_zero] at he
      exact (boAux_step ids rest acc i l).1 e he
  | succ j ih =>
    intro lines i acc e hok hlen he
    cases lines with
    | nil => simp at hlen
    | cons l rest =>
      have h0 : boRowError i l = none := by
        have := hok 0 (Nat.succ_pos j)
        simpa using this
      obtain ⟨tx, _, hstep⟩ := (boAux_step ids rest acc i l).2 h0
      rw [hstep]
      apply ih rest (i + 1) (acc ++ [tx]) e
      · intro k hk
        have := hok (k + 1) (by omega)
        have harith : i + (k + 1) = i + 1 + k := by omega
        rw [harith] at this
        simpa using this
      · simpa using hlen
      · have harith : i + (j + 1) = i + 1 + j := by omega
        rw [harith] at he
        simpa using he

theorem coAux_first_defect (ids : Nat → String) :
    ∀ (j : Nat) (lines : List String) (i : Nat) (acc : List CsvTransaction)
      (e : String),
    (∀ k, k < j → coRowError (i + k) (lines.getD k "") = none) →
    j < lines.length →
    coRowError (i + j) (lines.getD j "") = some e →
    parseCapitalOneAux ids lines i acc = .failure e := by
  intro j
  induction j with
  | zero =>
    intro lines i acc e _ hlen he
    cases lines with
    | nil => simp at hlen
    | cons l rest =>
      simp only [List.getD_cons_zero, Nat.add_zero] at he
      exact (coAux_step ids rest acc i l).1 e he
  | succ j ih =>
    intro lines i acc e hok hlen he
    cases lines with
    | nil => simp at hlen
    | cons l rest =>
      have h0 : coRowError i l = none := by
        have := hok 0 (Nat.succ_pos j)
        simpa using this
      obtain ⟨tx, _, hstep⟩ := (coAux_step ids rest acc i l).2 h0
      rw [hstep]
      apply ih rest (i + 1) (acc ++ [tx]) e
      · intro k hk
        have := hok (k + 1) (by omega)
        have harith : i + (k + 1) = i + 1 + k := by omega
        rw [harith] at this
        simpa using this
      · simpa using hlen
      · have harith : i + (j + 1) = i + 1 + j := by omega
        rw [harith] at he
        simpa using he

theorem boAux_inv (ids : Nat → String) :
    ∀ (lines : List String) (i : Nat) (acc : List CsvTransaction),
    (∀ tx ∈ acc, txWellFormed tx) →
    ∀ txs f, parseBankOfAmericaAux ids lines i acc = .success txs f →
    ∀ tx ∈ txs, txWellFormed tx := by
  intro lines
  induction lines with
  | nil =>
    intro i acc hacc txs f h tx htx
    simp only [parseBankOfAmericaAux, CsvParseResult.success.injEq] at h
    exact hacc tx (h.1 ▸ htx)
  | cons l rest ih =>
    intro i acc hacc txs f h tx htx
    cases hrow : boRowError i l with
    | some e =>
      rw [(boAux_step ids rest acc i l).1 e hrow] at h
      cases h
    | none =>
      obtain ⟨t, hwf, hstep⟩ := (boAux_step ids rest acc i l).2 hrow
      rw [hstep] at h
      refine ih (i + 1) (acc ++ [t]) ?_ txs f h tx htx
      intro g hg
      rcases List.mem_append.mp hg with h1 | h1
      · exact hacc g h1
      · rw [List.mem_singleton.mp h1]
        exact hwf

theorem coAux_inv (ids : Nat → String) :
    ∀ (lines : List String) (i : Nat) (acc : List CsvTransaction),
    (∀ tx ∈ acc, txWellFormed tx) →
    ∀ txs f, parseCapitalOneAux ids lines i acc = .success txs f →
    ∀ tx ∈ txs, txWellFormed tx := by
  intro lines
  induction lines with
  | nil =>
    intro i acc hacc txs f h tx htx
    simp only [parseCapitalOneAux, CsvParseResult.success.injEq] at h
    exact hacc tx (h.1 ▸ htx)
  | cons l rest ih =>
    intro i acc hacc txs f h tx htx
    cases hrow : coRowError i l with
    | some e =>
      rw [(coAux_step ids rest acc i l).1 e hrow] at h
      cases h
    | none =>
      obtain ⟨t, hwf, hstep⟩ := (coAux_step ids rest acc i l).2 hrow
      rw [hstep] at h
      refine ih (i + 1) (acc ++ [t]) ?_ txs f h tx htx
      intro g hg
      rcases List.mem_append.mp hg with h1 | h1
      · exact hacc g h1
      · rw [List.mem_singleton.mp h1]
        exact hwf

/-- Any successful `parseCsv` outcome is the successful outcome of the
dispatched row parser on the non-blank lines. -/
theorem parseCsv_success_elim {ids : Nat → String} {text : String}
    {format : Option CsvFormat} {txs : List CsvTransaction} {f : CsvFormat}
    (h : parseCsv ids text format = .success txs f) :
    ∃ fmt, runParser fmt ids (nonBlankLines text) = .success txs f := by
  by_cases hempty : (nonBlankLines text).isEmpty
  · simp only [parseCsv, if_pos hempty] at h
    cases h
  · have hstep : ∀ g : CsvFormat,
        (match runParser g ids (nonBlankLines text) with
          | CsvParseResult.success [] _ =>
            CsvParseResult.failure "No valid transactions found in the file."
          | r => r) = .success txs f →
        runParser g ids (nonBlankLines text) = .success txs f := by
      intro g hg
      cases hr : runParser g ids (nonBlankLines text) with
      | success ts g2 =>
        cases ts with
        | nil => rw [hr] at hg; cases hg
        | cons t ts => rw [hr] at hg; exact hg
      | failure e => rw [hr] at hg; cases hg
    cases format with
    | some g =>
      simp only [parseCsv, resolvedFormat, if_neg hempty] at h
      exact ⟨g, hstep g h⟩
    | none =>
      simp only [parseCsv, resolvedFormat, if_neg hempty] at h
      cases hdet : detectCsvFormat text with
      | none => rw [hdet] at h; cases h
      | some g =>
        rw [hdet] at h
        exact ⟨g, hstep g h⟩

theorem makeTransaction_eqExceptId (id1 id2 : String) (d : ℤ) (q : ℚ)
    (desc : String) :
    txEqExceptId (makeTransaction id1 d q desc) (makeTransaction id2 d q desc) :=
  ⟨rfl, rfl, rfl, rfl, rfl, rfl⟩

theorem wfAux_agree (ids1 ids2 : Nat → String) :
    ∀ (lines : List String) (i : Nat) (acc1 acc2 : List CsvTransaction),
    List.Forall₂ txEqExceptId acc1 acc2 →
    resultEqExceptId (parseWellsFargoAux ids1 lines i acc1)
      (parseWellsFargoAux ids2 lines i acc2) := by
  intro lines
  induction lines with
  | nil =>
    intro i acc1 acc2 hacc
    simp only [parseWellsFargoAux]
    exact ⟨rfl, hacc⟩
  | cons l rest ih =>
    intro i acc1 acc2 hacc
    by_cases h5 : (splitCsvLine l).length ≠ 5
    · simp only [parseWellsFargoAux, if_pos h5]
      exact rfl
    · cases hd : parseDate ((splitCsvLine l).getD 0 "") with
      | none =>
        simp only [parseWellsFargoAux, if_neg h5, hd]
        exact rfl
      | some d =>
        cases hf : parseFloat ((splitCsvLine l).getD 1 "") with
        | none =>
          simp only [parseWellsFargoAux, if_neg h5, hd, hf]
          exact rfl
        | some q =>
          simp only [parseWellsFargoAux, if_neg h5, hd, hf]
          exact ih (i + 1) _ _ (List.rel_append hacc
            (List.Forall₂.cons (makeTransaction_eqExceptId _ _ _ _ _)
              List.Forall₂.nil))

theorem chAux_agree (ids1 ids2 : Nat → String) :
    ∀ (lines : List String) (i : Nat) (acc1 acc2 : List CsvTransaction),
    List.Forall₂ txEqExceptId acc1 acc2 →
    resultEqExceptId (parseChaseAux ids1 lines i acc1)
      (parseChaseAux ids2 lines i acc2) := by
  intro lines
  induction lines with
  | nil =>
    intro i acc1 acc2 hacc
    simp only [parseChaseAux]
    exact ⟨rfl, hacc⟩
  | cons l rest ih =>
    intro i acc1 acc2 hacc
    by_cases h6 : (splitCsvLine l).length < 6
    · simp only [parseChaseAux, if_pos h6]
      exact rfl
    · cases hd : parseDate ((splitCsvLine l).getD 0 "") with
      | none =>
        simp only [parseChaseAux, if_neg h6, hd]
        exact rfl
      | some d =>
        cases hf : parseFloat ((splitCsvLine l).getD 5 "") with
        | none =>
          simp only [parseChaseAux, if_neg h6, hd, hf]
          exact rfl
        | some q =>
          simp only [parseChaseAux, if_neg h6, hd, hf]
          exact ih (i + 1) _ _ (List.rel_append hacc
            (List.Forall₂.cons (makeTransaction_eqExceptId _ _ _ _ _)
              List.Forall₂.nil))

theorem boAux_agree (ids1 ids2 : Nat → String) :
    ∀ (lines : List String) (i : Nat) (acc1 acc2 : List CsvTransaction),
    List.Forall₂ txEqExceptId acc1 acc2 →
    resultEqExceptId (parseBankOfAmericaAux ids1 lines i acc1)
      (parseBankOfAmericaAux ids2 lines i acc2) := by
  intro lines
  induction lines with
  | nil =>
    intro i acc1 acc2 hacc
    simp only [parseBankOfAmericaAux]
    exact ⟨rfl, hacc⟩
  | cons l rest ih =>
    intro i acc1 acc2 hacc
    by_cases h3 : (splitCsvLine l).length < 3
    · simp only [parseBankOfAmericaAux, if_pos h3]
      exact rfl
    · cases hd : parseDate ((splitCsvLine l).getD 0 "") with
      | none =>
        simp only [parseBankOfAmericaAux, if_neg h3, hd]
        exact rfl
      | some d =>
        cases hf : parseFloat ((splitCsvLine l).getD 2 "") with
        | none =>
          simp only [parseBankOfAmericaAux, if_neg h3, hd, hf]
          exact rfl
        | some q =>
          simp only [parseBankOfAmericaAux, if_neg h3, hd, hf]
          exact ih (i + 1) _ _ (List.rel_append hacc
            (List.Forall₂.cons (makeTransaction_eqExceptId _ _ _ _ _)
              List.Forall₂.nil))

theorem coAux_agree (ids1 ids2 : Nat → String) :
    ∀ (lines : List String) (i : Nat) (acc1 acc2 : List CsvTransaction),
    List.Forall₂ txEqExceptId acc1 acc2 →
    resultEqExceptId (parseCapitalOneAux ids1 lines i acc1)
      (parseCapitalOneAux ids2 lines i acc2) := by
  intro lines
  induction lines with
  | nil =>
    intro i acc1 acc2 hacc
    simp only [parseCapitalOneAux]
    exact ⟨rfl, hacc⟩
  | cons l rest ih =>
    intro i acc1 acc2 hacc
    by_cases h7 : (splitCsvLine l).length < 7
    · simp only [parseCapitalOneAux, if_pos h7]
      exact rfl
    · cases hd : parseDate ((splitCsvLine l).getD 0 "") with
      | none =>
        simp only [parseCapitalOneAux, if_neg h7, hd]
        exact rfl
      | some d =>
        by_cases hb : (!hasAmt ((splitCsvLine l).getD 5 "") &&
            !hasAmt ((splitCsvLine l).getD 6 "")) = true
        · simp only [parseCapitalOneAux, if_neg h7, hd, if_pos hb]
          exact rfl
        · simp only [parseCapitalOneAux, if_neg h7, hd, if_neg hb]
          exact ih (i + 1) _ _ (List.rel_append hacc
            (List.Forall₂.cons (makeTransaction_eqExceptId _ _ _ _ _)
              List.Forall₂.nil))

theorem runParser_agree (g : CsvFormat) (ids1 ids2 : Nat → String)
    (lines : List String) :
    resultEqExceptId (runParser g ids1 lines) (runParser g ids2 lines) := by
  cases g with
  | wellsFargo => exact wfAux_agree ids1 ids2 lines 0 [] [] List.Forall₂.nil
  | chase => exact chAux_agree ids1 ids2 (lines.drop 1) 1 [] [] List.Forall₂.nil
  | bankOfAmerica =>
    exact boAux_agree ids1 ids2 (lines.drop 1) 1 [] [] List.Forall₂.nil
  | capitalOne =>
    exact coAux_agree ids1 ids2 (lines.drop 1) 1 [] [] List.Forall₂.nil

theorem parseCsv_agree (ids1 ids2 : Nat → String) (text : String)
    (format : Option CsvFormat) :
    resultEqExceptId (parseCsv ids1 text format) (parseCsv ids2 text format) := by
  by_cases hempty : (nonBlankLines text).isEmpty
  · simp only [parseCsv, if_pos hempty]
    exact rfl
  · have hfin : ∀ g : CsvFormat, resultEqExceptId
        (match runParser g ids1 (nonBlankLines text) with
          | CsvParseResult.success [] _ =>
            CsvParseResult.failure "No valid transactions found in the file."
          | r => r)
        (match runParser g ids2 (nonBlankLines text) with
          | CsvParseResult.success [] _ =>
            CsvParseResult.failure "No valid transactions found in the file."
          | r => r) := by
      intro g
      have hrel := runParser_agree g ids1 ids2 (nonBlankLines text)
      cases hr1 : runParser g ids1 (nonBlankLines text) with
      | success ts1 f1 =>
        cases hr2 : runParser g ids2 (nonBlankLines text) with
        | success ts2 f2 =>
          rw [hr1, hr2] at hrel
          obtain ⟨hf, hts⟩ := hrel
          cases ts1 with
          | nil =>
            have hts2 : ts2 = [] := List.forall₂_nil_left_iff.mp hts
            subst hts2
            exact rfl
          | cons t1 ts1 =>
            cases ts2 with
            | nil => cases hts
            | cons t2 ts2 => exact ⟨hf, hts⟩
        | failure e2 =>
          rw [hr1, hr2] at hrel
          exact hrel.elim
      | failure e1 =>
        cases hr2 : runParser g ids2 (nonBlankLines text) with
        | success ts2 f2 =>
          rw [hr1, hr2] at hrel
          exact hrel.elim
        | failure e2 =>
          rw [hr1, hr2] at hrel
          exact hrel
    cases format with
    | some g =>
      simp only [parseCsv, resolvedFormat, if_neg hempty]
      exact hfin g
    | none =>
      simp only [parseCsv, resolvedFormat, if_neg hempty]
      cases hdet : detectCsvFormat text with
      | none => exact rfl
      | some g => exact hfin g

theorem parseCsv_success_ne_nil {ids : Nat → String} {text : String}
    {format : Option CsvFormat} {txs : List CsvTransaction} {f : CsvFormat}
    (h : parseCsv ids text format = .success txs f) : txs ≠ [] := by
  by_cases hempty : (nonBlankLines text).isEmpty
  · simp only [parseCsv, if_pos hempty] at h
    cases h
  · cases hres : resolvedFormat text format with
    | none =>
      simp only [parseCsv, if_neg hempty, hres] at h
      cases h
    | some g =>
      simp only [parseCsv, if_neg hempty, hres] at h
      cases hr : runParser g ids (nonBlankLines text) with
      | success ts f2 =>
        cases ts with
        | nil => rw [hr] at h; cases h
        | cons t ts =>
          rw [hr] at h
          simp only [CsvParseResult.success.injEq] at h
          rw [← h.1]
          simp
      | failure e => rw [hr] at h; cases h

theorem parseCsv_empty_success_converted {ids : Nat → String} {text : String}
    {format : Option CsvFormat} {f f2 : CsvFormat}
    (hne : (nonBlankLines text).isEmpty = false)
    (hres : resolvedFormat text format = some f)
    (hrun : runParser f ids (nonBlankLines text) = .success [] f2) :
    parseCsv ids text format = .failure "No valid transactions found in the file." := by
  simp only [parseCsv, hne, hres, hrun]
  simp

/-! ## Claim theorems -/

/-- C1. Every transaction in a successful `parseCsv` result has
`amount = round(|rawAmount| * 100)`, rounding to the nearest integer with
halves up (`⌊x + 1/2⌋`, JS `Math.round`), never truncating; in the exact
rational model a source decimal such as `19.995` deterministically yields
2000 (see the witness). -/
theorem spliit_C1 (ids : Nat → String) (text : String) (format : Option CsvFormat)
    (txs : List CsvTransaction) (f : CsvFormat)
    (h : parseCsv ids text format = .success txs f) :
    ∀ tx ∈ txs, tx.amount = ⌊|tx.rawAmount| * 100 + 1 / 2⌋ := by
  obtain ⟨fmt, hrun⟩ := parseCsv_success_elim h
  intro tx htx
  have hwf : txWellFormed tx := by
    cases fmt with
    | wellsFargo => exact wfAux_inv ids _ 0 [] (by simp) txs f hrun tx htx
    | chase => exact chAux_inv ids _ 1 [] (by simp) txs f hrun tx htx
    | bankOfAmerica => exact boAux_inv ids _ 1 [] (by simp) txs f hrun tx htx
    | capitalOne => exact coAux_inv ids _ 1 [] (by simp) txs f hrun tx htx
  exact hwf.1

/-- Witness for C1: a Chase file whose single data row carries the amount
`19.995`; the parse succeeds, the law holds, and the minor-unit amount is
2000 (half rounded up), not the truncation 1999. -/
theorem spliit_C1_witness :
    parseCsv ids0 "Transaction Date,Post Date,Description,Category,Type,Amount\n01/15/2024,01/16/2024,Store,Shopping,Sale,19.995" none
      = .success [makeTransaction (ids0 1) (jsMakeDateMs 2024 0 15 12)
          (mkRat 19995 1000) "Store"] .chase ∧
    (makeTransaction (ids0 1) (jsMakeDateMs 2024 0 15 12)
        (mkRat 19995 1000) "Store").amount
      = ⌊|(makeTransaction (ids0 1) (jsMakeDateMs 2024 0 15 12)
          (mkRat 19995 1000) "Store").rawAmount| * 100 + 1 / 2⌋ ∧
    (makeTransaction (ids0 1) (jsMakeDateMs 2024 0 15 12)
        (mkRat 19995 1000) "Store").amount = 2000 := by
  refine ⟨by decide, ?_, by decide⟩
  exact spliit_C1 ids0
    "Transaction Date,Post Date,Description,Category,Type,Amount\n01/15/2024,01/16/2024,Store,Shopping,Sale,19.995"
    none
    [makeTransaction (ids0 1) (jsMakeDateMs 2024 0 15 12) (mkRat 19995 1000) "Store"]
    .chase (by decide)
    (makeTransaction (ids0 1) (jsMakeDateMs 2024 0 15 12) (mkRat 19995 1000) "Store")
    (List.mem_singleton_self _)

/-- C2. `parseCsv` never returns a successful outcome with an empty
transaction list; when the dispatched parser succeeds with zero
transactions, the outcome is the fixed no-valid-transactions failure. -/
theorem spliit_C2 (ids : Nat → String) (text : String) (format : Option CsvFormat) :
    (∀ txs f, parseCsv ids text format = .success txs f → txs ≠ []) ∧
    (∀ f f2, (nonBlankLines text).isEmpty = false →
      resolvedFormat text format = some f →
      runParser f ids (nonBlankLines text) = .success [] f2 →
      parseCsv ids text format
        = .failure "No valid transactions found in the file.") :=
  ⟨fun _ _ h => parseCsv_success_ne_nil h,
   fun _ _ hne hres hrun => parseCsv_empty_success_converted hne hres hrun⟩

/-- Witness for C2: a header-only Chase file; its parser succeeds with zero
transactions and `parseCsv` turns that into the fixed failure. -/
theorem spliit_C2_witness :
    (nonBlankLines "Transaction Date,Post Date,Description,Category,Type,Amount").isEmpty = false ∧
    resolvedFormat "Transaction Date,Post Date,Description,Category,Type,Amount" none = some .chase ∧
    runParser .chase ids0
      (nonBlankLines "Transaction Date,Post Date,Description,Category,Type,Amount")
      = .success [] .chase ∧
    parseCsv ids0 "Transaction Date,Post Date,Description,Category,Type,Amount" none
      = .failure "No valid transactions found in the file." := by
  refine ⟨by decide, by decide, by decide, ?_⟩
  exact (spliit_C2 ids0
    "Transaction Date,Post Date,Description,Category,Type,Amount" none).2
    .chase .chase (by decide) (by decide) (by decide)

/-- C6. Every transaction in any successful `parseCsv` result
satisfies `isCredit ↔ rawAmount > 0` and `selected = !isCredit`
immediately after parsing. -/
theorem spliit_C6 (ids : Nat → String) (text : String) (format : Option CsvFormat)
    (txs : List CsvTransaction) (f : CsvFormat)
    (h : parseCsv ids text format = .success txs f) :
    ∀ tx ∈ txs, (tx.isCredit = true ↔ 0 < tx.rawAmount) ∧
      tx.selected = !tx.isCredit := by
  obtain ⟨fmt, hrun⟩ := parseCsv_success_elim h
  intro tx htx
  have hwf : txWellFormed tx := by
    cases fmt with
    | wellsFargo => exact wfAux_inv ids _ 0 [] (by simp) txs f hrun tx htx
    | chase => exact chAux_inv ids _ 1 [] (by simp) txs f hrun tx htx
    | bankOfAmerica => exact boAux_inv ids _ 1 [] (by simp) txs f hrun tx htx
    | capitalOne => exact coAux_inv ids _ 1 [] (by simp) txs f hrun tx htx
  constructor
  · rw [hwf.2.1]
    simp
  · exact hwf.2.2

/-- Witness for C6: a Wells Fargo file with one charge and one credit;
the sign and default-selection laws hold, and concretely the charge is
selected while the credit is not. -/
theorem spliit_C6_witness :
    parseCsv ids0 "01/15/2024,-42.50,*,,Coffee Shop\n01/16/2024,12.00,*,,Refund" none
      = .success
          [makeTransaction (ids0 0) (jsMakeDateMs 2024 0 15 12) (mkRat (-425) 10) "Coffee Shop",
           makeTransaction (ids0 1) (jsMakeDateMs 2024 0 16 12) (mkRat 12 1) "Refund"]
          .wellsFargo ∧
    (∀ tx ∈ [makeTransaction (ids0 0) (jsMakeDateMs 2024 0 15 12) (mkRat (-425) 10) "Coffee Shop",
             makeTransaction (ids0 1) (jsMakeDateMs 2024 0 16 12) (mkRat 12 1) "Refund"],
      (tx.isCredit = true ↔ 0 < tx.rawAmount) ∧ tx.selected = !tx.isCredit) ∧
    (makeTransaction (ids0 0) (jsMakeDateMs 2024 0 15 12) (mkRat (-425) 10) "Coffee Shop").selected = true ∧
    (makeTransaction (ids0 1) (jsMakeDateMs 2024 0 16 12) (mkRat 12 1) "Refund").selected = false := by
  refine ⟨by decide, ?_, by decide, by decide⟩
  exact spliit_C6 ids0 "01/15/2024,-42.50,*,,Coffee Shop\n01/16/2024,12.00,*,,Refund"
    none _ .wellsFargo (by decide)

/-- C8. Two `parseCsv` runs on the same text and format override with
different identity sources agree in every respect except per-transaction
identity: identical failure strings, identical detected format, and
transaction lists pointwise equal in date, amount, rawAmount, isCredit,
description and selected. -/
theorem spliit_C8 (ids1 ids2 : Nat → String) (text : String)
    (format : Option CsvFormat) :
    resultEqExceptId (parseCsv ids1 text format) (parseCsv ids2 text format) :=
  parseCsv_agree ids1 ids2 text format

theorem wfRowError_shape {i : Nat} {l e : String} (h : wfRowError i l = some e) :
    ∃ r, e = "Row " ++ toString (i + 1) ++ ": " ++ r := by
  simp only [wfRowError] at h
  split at h
  · cases h
    exact ⟨_, rfl⟩
  · split at h
    · cases h
      exact ⟨_, rfl⟩
    · split at h
      · cases h
        exact ⟨_, rfl⟩
      · cases h

theorem chRowError_shape {i : Nat} {l e : String} (h : chRowError i l = some e) :
    ∃ r, e = "Row " ++ toString (i + 1) ++ ": " ++ r := by
  simp only [chRowError] at h
  split at h
  · cases h
    exact ⟨_, rfl⟩
  · split at h
    · cases h
      exact ⟨_, rfl⟩
    · split at h
      · cases h
        exact ⟨_, rfl⟩
      · cases h

theorem boRowError_shape {i : Nat} {l e : String} (h : boRowError i l = some e) :
    ∃ r, e = "Row " ++ toString (i + 1) ++ ": " ++ r := by
  simp only [boRowError] at h
  split at h
  · cases h
    exact ⟨_, rfl⟩
  · split at h
    · cases h
      exact ⟨_, rfl⟩
    · split at h
      · cases h
        exact ⟨_, rfl⟩
      · cases h

theorem coRowError_shape {i : Nat} {l e : String} (h : coRowError i l = some e) :
    ∃ r, e = "Row " ++ toString (i + 1) ++ ": " ++ r := by
  simp only [coRowError] at h
  split at h
  · cases h
    exact ⟨_, rfl⟩
  · split at h
    · cases h
      exact ⟨_, rfl⟩
    · split at h
      · cases h
        exact ⟨_, rfl⟩
      · cases h

theorem getD_drop_one (lines : List String) (k : Nat) :
    (lines.drop 1).getD k "" = lines.getD (1 + k) "" := by
  rw [List.getD_eq_getElem?_getD, List.getD_eq_getElem?_getD, List.getElem?_drop]

/-- C3. For every format's row parser — Wells Fargo, Chase, Bank of
America and Capital One — the first defective row aborts the entire call:
if every earlier data row passes its per-row checks and row `j` (0-based)
fails with diagnostic `e`, the parser returns exactly `failure e` — no
transactions, in particular none from earlier valid rows — and `e` names
the 1-indexed row `j + 1`. -/
theorem spliit_C3 (ids : Nat → String) (lines : List String) (j : Nat) (e : String) :
    (j < lines.length →
      (∀ k, k < j → wfRowError k (lines.getD k "") = none) →
      wfRowError j (lines.getD j "") = some e →
      parseWellsFargo ids lines = .failure e ∧
        ∃ r, e = "Row " ++ toString (j + 1) ++ ": " ++ r) ∧
    (1 ≤ j → j < lines.length →
      (∀ k, 1 ≤ k → k < j → chRowError k (lines.getD k "") = none) →
      chRowError j (lines.getD j "") = some e →
      parseChase ids lines = .failure e ∧
        ∃ r, e = "Row " ++ toString (j + 1) ++ ": " ++ r) ∧
    (1 ≤ j → j < lines.length →
      (∀ k, 1 ≤ k → k < j → boRowError k (lines.getD k "") = none) →
      boRowError j (lines.getD j "") = some e →
      parseBankOfAmerica ids lines = .failure e ∧
        ∃ r, e = "Row " ++ toString (j + 1) ++ ": " ++ r) ∧
    (1 ≤ j → j < lines.length →
      (∀ k, 1 ≤ k → k < j → coRowError k (lines.getD k "") = none) →
      coRowError j (lines.getD j "") = some e →
      parseCapitalOne ids lines = .failure e ∧
        ∃ r, e = "Row " ++ toString (j + 1) ++ ": " ++ r) := by
  refine ⟨?_, ?_, ?_, ?_⟩
  · intro hlen hok he
    refine ⟨?_, wfRowError_shape he⟩
    exact wfAux_first_defect ids j lines 0 [] e
      (by intro k hk; simpa using hok k hk) hlen (by simpa using he)
  · intro h1 hlen hok he
    refine ⟨?_, chRowError_shape he⟩
    show parseChaseAux ids (lines.drop 1) 1 [] = .failure e
    apply chAux_first_defect ids (j - 1) (lines.drop 1) 1 [] e
    · intro k hk
      rw [getD_drop_one]
      exact hok (1 + k) (by omega) (by omega)
    · simp only [List.length_drop]
      omega
    · rw [getD_drop_one]
      have harith : 1 + (j - 1) = j := by omega
      rw [harith]
      exact he
  · intro h1 hlen hok he
    refine ⟨?_, boRowError_shape he⟩
    show parseBankOfAmericaAux ids (lines.drop 1) 1 [] = .failure e
    apply boAux_first_defect ids (j - 1) (lines.drop 1) 1 [] e
    · intro k hk
      rw [getD_drop_one]
      exact hok (1 + k) (by omega) (by omega)
    · simp only [List.length_drop]
      omega
    · rw [getD_drop_one]
      have harith : 1 + (j - 1) = j := by omega
      rw [harith]
      exact he
  · intro h1 hlen hok he
    refine ⟨?_, coRowError_shape he⟩
    show parseCapitalOneAux ids (lines.drop 1) 1 [] = .failure e
    apply coAux_first_defect ids (j - 1) (lines.drop 1) 1 [] e
    · intro k hk
      rw [getD_drop_one]
      exact hok (1 + k) (by omega) (by omega)
    · simp only [List.length_drop]
      omega
    · rw [getD_drop_one]
      have harith : 1 + (j - 1) = j := by omega
      rw [harith]
      exact he

/-- Witness for C3: a Wells Fargo file whose row 1 is valid and row 2 is
structurally invalid fails naming row 2; a Chase file whose data row 1 is
valid and data row 2 has a bad date fails naming row 3; a Bank of America
file whose data row 2 has a bad amount fails naming row 3; and a Capital
One file whose data row 2 has neither debit nor credit fails naming
row 3 through that distinct semantic path. -/
theorem spliit_C3_witness :
    ((1 : Nat) < (["01/15/2024,-42.50,*,,Coffee Shop", "01/16/2024,bad"] : List String).length ∧
     (∀ k, k < 1 → wfRowError k ((["01/15/2024,-42.50,*,,Coffee Shop", "01/16/2024,bad"] : List String).getD k "") = none) ∧
     wfRowError 1 "01/16/2024,bad" = some "Row 2: Expected 5 columns but found 2." ∧
     parseWellsFargo ids0 ["01/15/2024,-42.50,*,,Coffee Shop", "01/16/2024,bad"]
       = .failure "Row 2: Expected 5 columns but found 2.") ∧
    (chRowError 2 "13-01-2024,x,Desc,Cat,Type,5.00" = some "Row 3: Invalid date \"13-01-2024\"." ∧
     parseChase ids0
       ["Transaction Date,Post Date,Description,Category,Type,Amount",
        "01/15/2024,01/16/2024,Store,Shopping,Sale,19.99",
        "13-01-2024,x,Desc,Cat,Type,5.00"]
       = .failure "Row 3: Invalid date \"13-01-2024\".") ∧
    (boRowError 2 "01/16/2024,Bad,xx,95.50" = some "Row 3: Invalid amount \"xx\"." ∧
     parseBankOfAmerica ids0
       ["Date,Description,Amount,Running Bal.",
        "01/15/2024,Coffee,-4.50,100.00",
        "01/16/2024,Bad,xx,95.50"]
       = .failure "Row 3: Invalid amount \"xx\".") ∧
    (coRowError 2 "01/17/2024,01/18/2024,1234,Mystery,Misc,," = some "Row 3: No debit or credit amount found." ∧
     parseCapitalOne ids0
       ["Transaction Date,Posted Date,Card No.,Description,Category,Debit,Credit",
        "01/15/2024,01/16/2024,1234,Lunch,Food,12.00,",
        "01/17/2024,01/18/2024,1234,Mystery,Misc,,"]
       = .failure "Row 3: No debit or credit amount found.") := by
  refine ⟨⟨by decide, by decide, by decide, ?_⟩, ⟨by decide, ?_⟩, ⟨by decide, ?_⟩,
    ⟨by decide, ?_⟩⟩
  · exact ((spliit_C3 ids0 ["01/15/2024,-42.50,*,,Coffee Shop", "01/16/2024,bad"] 1
      "Row 2: Expected 5 columns but found 2.").1 (by decide) (by decide) (by decide)).1
  · exact ((spliit_C3 ids0
      ["Transaction Date,Post Date,Description,Category,Type,Amount",
       "01/15/2024,01/16/2024,Store,Shopping,Sale,19.99",
       "13-01-2024,x,Desc,Cat,Type,5.00"] 2
      "Row 3: Invalid date \"13-01-2024\".").2.1 (by decide) (by decide) (by decide)
      (by decide)).1
  · exact ((spliit_C3 ids0
      ["Date,Description,Amount,Running Bal.",
       "01/15/2024,Coffee,-4.50,100.00",
       "01/16/2024,Bad,xx,95.50"] 2
      "Row 3: Invalid amount \"xx\".").2.2.1 (by decide) (by decide) (by decide)
      (by decide)).1
  · exact ((spliit_C3 ids0
      ["Transaction Date,Posted Date,Card No.,Description,Category,Debit,Credit",
       "01/15/2024,01/16/2024,1234,Lunch,Food,12.00,",
       "01/17/2024,01/18/2024,1234,Mystery,Misc,,"] 2
      "Row 3: No debit or credit amount found.").2.2.2 (by decide) (by decide) (by decide)
      (by decide)).1

theorem detectCsvFormat_first (t : String) :
    detectCsvFormat t =
      match firstNonBlankLine t with
      | none => none
      | some l0 => detectFromFirst l0 := rfl

/-- C4. Detection depends only on the first non-blank line, and the
checks run first-match-wins in the fixed order chase, capital-one,
bank-of-america, then the headerless structural rule, so a first line
satisfying several keyword sets deterministically resolves to the
first-listed format. -/
theorem spliit_C4 :
    (∀ t1 t2 : String, firstNonBlankLine t1 = firstNonBlankLine t2 →
      detectCsvFormat t1 = detectCsvFormat t2) ∧
    (∀ (t : String) (l0 : String), firstNonBlankLine t = some l0 →
      (chaseHeaderTest l0 = true → detectCsvFormat t = some .chase) ∧
      (chaseHeaderTest l0 = false → capitalOneHeaderTest l0 = true →
        detectCsvFormat t = some .capitalOne) ∧
      (chaseHeaderTest l0 = false → capitalOneHeaderTest l0 = false →
        bofaHeaderTest l0 = true → detectCsvFormat t = some .bankOfAmerica) ∧
      (chaseHeaderTest l0 = false → capitalOneHeaderTest l0 = false →
        bofaHeaderTest l0 = false → wellsStructTest l0 = true →
        detectCsvFormat t = some .wellsFargo) ∧
      (chaseHeaderTest l0 = false → capitalOneHeaderTest l0 = false →
        bofaHeaderTest l0 = false → wellsStructTest l0 = false →
        detectCsvFormat t = none)) := by
  constructor
  · intro t1 t2 h
    rw [detectCsvFormat_first, detectCsvFormat_first, h]
  · intro t l0 h
    rw [detectCsvFormat_first, h]
    refine ⟨?_, ?_, ?_, ?_, ?_⟩
    · intro h1
      simp [detectFromFirst, h1]
    · intro h1 h2
      simp [detectFromFirst, h1, h2]
    · intro h1 h2 h3
      simp [detectFromFirst, h1, h2, h3]
    · intro h1 h2 h3 h4
      simp [detectFromFirst, h1, h2, h3, h4]
    · intro h1 h2 h3 h4
      simp [detectFromFirst, h1, h2, h3, h4]

/-- Witness for C4: a first line satisfying both the Chase and the Capital
One keyword sets resolves to Chase; texts sharing the first non-blank line
detect identically regardless of later rows. -/
theorem spliit_C4_witness :
    firstNonBlankLine "transaction date,post date,posted date,category,type,debit,credit\nrow2"
      = some "transaction date,post date,posted date,category,type,debit,credit" ∧
    chaseHeaderTest "transaction date,post date,posted date,category,type,debit,credit" = true ∧
    capitalOneHeaderTest "transaction date,post date,posted date,category,type,debit,credit" = true ∧
    detectCsvFormat "transaction date,post date,posted date,category,type,debit,credit\nrow2"
      = some .chase ∧
    firstNonBlankLine "transaction date,post date,posted date,category,type,debit,credit\nrow2"
      = firstNonBlankLine "transaction date,post date,posted date,category,type,debit,credit\nanother,row,entirely" ∧
    detectCsvFormat "transaction date,post date,posted date,category,type,debit,credit\nrow2"
      = detectCsvFormat "transaction date,post date,posted date,category,type,debit,credit\nanother,row,entirely" := by
  refine ⟨by decide, by decide, by decide, ?_, by decide, ?_⟩
  · exact (spliit_C4.2
      "transaction date,post date,posted date,category,type,debit,credit\nrow2"
      "transaction date,post date,posted date,category,type,debit,credit"
      (by decide)).1 (by decide)
  · exact spliit_C4.1
      "transaction date,post date,posted date,category,type,debit,credit\nrow2"
      "transaction date,post date,posted date,category,type,debit,credit\nanother,row,entirely"
      (by decide)

/-- C5 (amended). A Capital One data row with at least 7 columns and a
valid date reads debit from column 5 and credit from column 6: if neither
is present and parseable the call fails naming the row; a present debit
yields `rawAmount = -|debit|` (nonpositive — strictly negative only when
the debit is nonzero), a present credit with no debit yields
`rawAmount = |credit|` (nonnegative), and when both are present the debit
takes precedence. -/
theorem spliit_C5 (ids : Nat → String) (l : String) (rest : List String)
    (i : Nat) (acc : List CsvTransaction) (d : ℤ)
    (h7 : ¬(splitCsvLine l).length < 7)
    (hd : parseDate ((splitCsvLine l).getD 0 "") = some d) :
    (hasAmt ((splitCsvLine l).getD 5 "") = false →
      hasAmt ((splitCsvLine l).getD 6 "") = false →
      parseCapitalOneAux ids (l :: rest) i acc
        = .failure (rowMsg i "No debit or credit amount found.")) ∧
    (∀ dv, hasAmt ((splitCsvLine l).getD 5 "") = true →
      parseFloat ((splitCsvLine l).getD 5 "") = some dv →
      parseCapitalOneAux ids (l :: rest) i acc
        = parseCapitalOneAux ids rest (i + 1)
            (acc ++ [makeTransaction (ids i) d (-|dv|) ((splitCsvLine l).getD 3 "")]) ∧
      -|dv| ≤ 0) ∧
    (∀ cv, hasAmt ((splitCsvLine l).getD 5 "") = false →
      hasAmt ((splitCsvLine l).getD 6 "") = true →
      parseFloat ((splitCsvLine l).getD 6 "") = some cv →
      parseCapitalOneAux ids (l :: rest) i acc
        = parseCapitalOneAux ids rest (i + 1)
            (acc ++ [makeTransaction (ids i) d |cv| ((splitCsvLine l).getD 3 "")]) ∧
      0 ≤ |cv|) := by
  refine ⟨?_, ?_, ?_⟩
  · intro hf5 hf6
    simp only [parseCapitalOneAux, if_neg h7, hd]
    rw [if_pos (by rw [hf5, hf6]; rfl)]
  · intro dv hf5 hdv
    constructor
    · simp only [parseCapitalOneAux, if_neg h7, hd]
      rw [if_neg (by rw [hf5]; simp)]
      rw [hf5, hdv]
      simp [ratAbs_eq]
    · exact neg_nonpos.mpr (abs_nonneg dv)
  · intro cv hf5 hf6 hcv
    constructor
    · simp only [parseCapitalOneAux, if_neg h7, hd]
      rw [if_neg (by rw [hf6]; simp)]
      rw [hf5, hcv]
      simp only [Bool.false_eq_true, if_false, Option.getD_some, ratAbs_eq]
    · exact abs_nonneg cv

/-- Counterexample to C5 as stated: a data row whose debit column holds
`0.00` — a present, parseable debit — produces `rawAmount = 0`, which is
not negative (and the transaction is classified as a non-credit and
pre-selected). -/
theorem spliit_C5_counterexample :
    hasAmt "0.00" = true ∧
    parseCapitalOne ids0
      ["Transaction Date,Posted Date,Card No.,Description,Category,Debit,Credit",
       "01/15/2024,01/16/2024,1234,Zero charge,Misc,0.00,"]
      = .success [makeTransaction (ids0 1) (jsMakeDateMs 2024 0 15 12) 0 "Zero charge"]
          .capitalOne ∧
    (makeTransaction (ids0 1) (jsMakeDateMs 2024 0 15 12) 0 "Zero charge").rawAmount = 0 ∧
    ¬((makeTransaction (ids0 1) (jsMakeDateMs 2024 0 15 12) 0 "Zero charge").rawAmount < 0) := by
  refine ⟨by decide, by decide, by decide, by decide⟩

/-- Witness for C5: a row carrying both a debit (`12.00`) and a credit
(`34.50`); the debit wins and the signed amount is `-12`. -/
theorem spliit_C5_witness :
    (¬(splitCsvLine "01/15/2024,01/16/2024,1234,Lunch,Food,12.00,34.50").length < 7) ∧
    parseDate ((splitCsvLine "01/15/2024,01/16/2024,1234,Lunch,Food,12.00,34.50").getD 0 "")
      = some (jsMakeDateMs 2024 0 15 12) ∧
    hasAmt ((splitCsvLine "01/15/2024,01/16/2024,1234,Lunch,Food,12.00,34.50").getD 5 "") = true ∧
    parseFloat ((splitCsvLine "01/15/2024,01/16/2024,1234,Lunch,Food,12.00,34.50").getD 5 "")
      = some (mkRat 12 1) ∧
    parseCapitalOneAux ids0 ["01/15/2024,01/16/2024,1234,Lunch,Food,12.00,34.50"] 1 []
      = parseCapitalOneAux ids0 [] 2
          ([] ++ [makeTransaction (ids0 1) (jsMakeDateMs 2024 0 15 12) (-|mkRat 12 1|)
            ((splitCsvLine "01/15/2024,01/16/2024,1234,Lunch,Food,12.00,34.50").getD 3 "")]) := by
  refine ⟨by decide, by decide, by decide, by decide, ?_⟩
  exact ((spliit_C5 ids0 "01/15/2024,01/16/2024,1234,Lunch,Food,12.00,34.50" [] 1 []
    (jsMakeDateMs 2024 0 15 12) (by decide) (by decide)).2.1 (mkRat 12 1)
    (by decide) (by decide)).1

/-- C7. `splitCsvLine` splits on commas except inside quoted spans:
every produced field is whitespace-trimmed; a comma inside an open quoted
span stays as field content; two consecutive quote characters inside a
quoted span collapse into one literal quote in the field's value. -/
theorem spliit_C7 :
    (∀ line : String, ∀ f ∈ splitCsvLine line, trimStr f = f) ∧
    (∀ a b : List Char, (∀ c ∈ a, plainChar c) → (∀ c ∈ b, plainChar c) →
      splitCsvLine (String.mk ('"' :: a ++ ',' :: b ++ ['"']))
        = [String.mk (a ++ ',' :: b)]) ∧
    (∀ a b : List Char, (∀ c ∈ a, plainChar c) → (∀ c ∈ b, plainChar c) →
      splitCsvLine (String.mk ('"' :: a ++ '"' :: '"' :: b ++ ['"']))
        = [String.mk (a ++ '"' :: b)]) := by
  refine ⟨?_, splitCsv_quoted_comma, splitCsv_escaped_quote⟩
  intro line f hf
  obtain ⟨l, hl, rfl⟩ := List.mem_map.mp hf
  have htr : trimChars l = l :=
    splitCsvAux_all_trimmed line.data false [] [] (by simp) l hl
  show String.mk (trimChars l) = String.mk l
  rw [htr]

/-- Witness for C7: the quoted field `"x,y"` keeps its comma, the quoted
field `"x""y"` collapses the doubled quote, and the fields of
`" a , b "` come out trimmed. -/
theorem spliit_C7_witness :
    ("a" ∈ splitCsvLine " a , b " ∧ trimStr "a" = "a") ∧
    (String.mk ('"' :: ['x'] ++ ',' :: ['y'] ++ ['"']) = "\"x,y\"" ∧
     splitCsvLine "\"x,y\"" = ["x,y"]) ∧
    (String.mk ('"' :: ['x'] ++ '"' :: '"' :: ['y'] ++ ['"']) = "\"x\"\"y\"" ∧
     splitCsvLine "\"x\"\"y\"" = ["x\"y"]) := by
  refine ⟨⟨by decide, ?_⟩, ⟨by decide, ?_⟩, ⟨by decide, ?_⟩⟩
  · exact spliit_C7.1 " a , b " "a" (by decide)
  · have h := spliit_C7.2.1 ['x'] ['y'] (by decide) (by decide)
    exact h
  · have h := spliit_C7.2.2 ['x'] ['y'] (by decide) (by decide)
    exact h

/-- C9. `parseDate` rejects exactly the strings failing the
`M{1,2}/D{1,2}/YYYY` digit pattern: every pattern-matching string parses
successfully (the NaN-rejection branch is unreachable because the time
value always lies far inside the ECMAScript range), calendar validity is
never checked, and out-of-range components roll forward — `13/45/2024`
parses to the time value of 2025-02-14 noon. -/
theorem spliit_C9 :
    (∀ s : String, matchDatePattern s.data = none → parseDate s = none) ∧
    (∀ (s : String) (mo da yr : Nat), matchDatePattern s.data = some (mo, da, yr) →
      parseDate s = some (jsMakeDateMs
        (if yr ≤ 99 then (yr : ℤ) + 1900 else (yr : ℤ)) ((mo : ℤ) - 1) (da : ℤ) 12)) ∧
    (parseDate "13/45/2024" = some (jsMakeDateMs 2024 12 45 12) ∧
     jsMakeDateMs 2024 12 45 12 = jsMakeDateMs 2025 1 14 12) := by
  refine ⟨?_, ?_, by decide, by decide⟩
  · intro s h
    exact parseDate_none_of_no_match h
  · intro s mo da yr h
    exact parseDate_some_of_match h

/-- Witness for C9: `13/45/2024` matches the digit pattern — month 13,
day 45 — and parses successfully; `2024-01-15` fails the pattern and is
rejected. -/
theorem spliit_C9_witness :
    matchDatePattern ("13/45/2024" : String).data = some (13, 45, 2024) ∧
    parseDate "13/45/2024" = some (jsMakeDateMs
      (if (2024 : Nat) ≤ 99 then (2024 : ℤ) + 1900 else (2024 : ℤ))
      ((13 : ℤ) - 1) (45 : ℤ) 12) ∧
    matchDatePattern ("2024-01-15" : String).data = none ∧
    parseDate "2024-01-15" = none := by
  refine ⟨by decide, ?_, by decide, ?_⟩
  · exact spliit_C9.2.1 "13/45/2024" 13 45 2024 (by decide)
  · exact spliit_C9.1 "2024-01-15" (by decide)

/-- C10. An amount field is rejected only when it has no leading
numeric prefix: any decimal literal followed by non-extending junk parses
to the literal's exact value (and such a row is accepted, the prefix
becoming the signed amount), while a field like `abc` with no numeric
prefix makes the row fail with the Invalid-amount diagnostic. -/
theorem spliit_C10 :
    (∀ (ip fp junk : List Char) (c : Char),
      (∀ x ∈ ip, x.isDigit = true) → (∀ x ∈ fp, x.isDigit = true) →
      ¬(ip = [] ∧ fp = []) → c.isDigit = false → c ≠ 'e' → c ≠ 'E' →
      parseFloat (String.mk (ip ++ '.' :: fp ++ c :: junk)) = some (decValue ip fp)) ∧
    (∀ (ids : Nat → String) (i : Nat) (l : String) (rest : List String)
        (acc : List CsvTransaction) (d : ℤ) (q : ℚ),
      (splitCsvLine l).length = 5 →
      parseDate ((splitCsvLine l).getD 0 "") = some d →
      parseFloat ((splitCsvLine l).getD 1 "") = some q →
      parseWellsFargoAux ids (l :: rest) i acc
        = parseWellsFargoAux ids rest (i + 1)
            (acc ++ [makeTransaction (ids i) d q ((splitCsvLine l).getD 4 "")])) ∧
    (parseFloat "12.50abc" = some (mkRat 25 2) ∧
     parseWellsFargo ids0 ["01/15/2024,12.50abc,*,,Coffee Shop"]
       = .success [makeTransaction (ids0 0) (jsMakeDateMs 2024 0 15 12) (mkRat 25 2)
           "Coffee Shop"] .wellsFargo ∧
     parseWellsFargo ids0 ["01/15/2024,abc,*,,Coffee Shop"]
       = .failure "Row 1: Invalid amount \"abc\".") := by
  refine ⟨?_, ?_, by decide, by decide, by decide⟩
  · intro ip fp junk c hip hfp hne hc1 hc3 hc4
    exact parseFloat_decimal_junk ip fp junk c hip hfp hne hc1 hc3 hc4
  · intro ids i l rest acc d q h5 hd hq
    have h5' : ¬(splitCsvLine l).length ≠ 5 := by simp [h5]
    simp only [parseWellsFargoAux, if_neg h5', hd, hq]

/-- Witness for C10: `1.5x` parses to `3/2` via the prefix rule, and the
accepting row step applies concretely to the `12.50abc` row. -/
theorem spliit_C10_witness :
    parseFloat (String.mk (['1'] ++ '.' :: ['5'] ++ 'x' :: [])) = some (decValue ['1'] ['5']) ∧
    decValue ['1'] ['5'] = mkRat 3 2 ∧
    parseWellsFargoAux ids0 ["01/15/2024,12.50abc,*,,Coffee Shop"] 0 []
      = parseWellsFargoAux ids0 [] 1
          ([] ++ [makeTransaction (ids0 0) (jsMakeDateMs 2024 0 15 12) (mkRat 25 2)
            ((splitCsvLine "01/15/2024,12.50abc,*,,Coffee Shop").getD 4 "")]) := by
  refine ⟨?_, by decide, ?_⟩
  · exact spliit_C10.1 ['1'] ['5'] [] 'x' (by decide) (by decide) (by decide)
      (by decide) (by decide) (by decide)
  · exact spliit_C10.2.1 ids0 0 "01/15/2024,12.50abc,*,,Coffee Shop" [] []
      (jsMakeDateMs 2024 0 15 12) (mkRat 25 2) (by decide) (by decide) (by decide)
